import Mathlib

/-!
# Verification of the sieve-analysis engine (KINTOUKEISUU)

Shallow embedding of the particle-size analysis engine found in
`src/sieve-analysis-app/src/App.tsx` (namespace `App`) and in the earlier
revision `src/unnamed/part_000` (namespace `P000`).

Modelling conventions:
* JavaScript numbers are modelled as exact rationals (`ℚ`) for all data and
  comparisons; the transcendental part of the interpolation (`Math.log10`,
  `Math.pow(10, ·)`) is realised over `ℝ` via `Real.logb`/`rpow`.
* `Array.prototype.sort` with a comparator is a stable sort (ES2019);
  `List.insertionSort` is stable for a total preorder, so it is used as the
  model of every `.sort((a, b) => k(a) - k(b))` call.
* Grid cell strings are abstracted by `Cell`, which records exactly the
  distinctions the two parsers (`Number` via `toNumberOrNull`, `parseFloat`)
  can observe: blank/whitespace, fully numeric, numeric prefix followed by
  junk, and completely non-numeric.
-/

/-- A data point handed to the interpolation routine: sieve opening size in
mm and cumulative passing percentage. -/
structure Point where
  sieveSize : ℚ
  passing : ℚ
deriving DecidableEq

instance : Inhabited Point := ⟨⟨0, 0⟩⟩

/-- Comparator `(a, b) => a.passing - b.passing`: ascending by passing. -/
def lePass (a b : Point) : Prop := a.passing ≤ b.passing

instance : DecidableRel lePass := fun a b => inferInstanceAs (Decidable (a.passing ≤ b.passing))

instance : IsTotal Point lePass := ⟨fun a b => le_total a.passing b.passing⟩

instance : IsTrans Point lePass := ⟨fun _ _ _ h h' => le_trans h h'⟩

/-- Comparator `(a, b) => b.sieveSize - a.sieveSize`: descending by size. -/
def leSizeDesc (a b : Point) : Prop := b.sieveSize ≤ a.sieveSize

instance : DecidableRel leSizeDesc := fun a b => inferInstanceAs (Decidable (b.sieveSize ≤ a.sieveSize))

instance : IsTotal Point leSizeDesc := ⟨fun a b => le_total b.sieveSize a.sieveSize⟩

instance : IsTrans Point leSizeDesc := ⟨fun _ _ _ h h' => le_trans h' h⟩

/-- The loop `for (i...) if (valid[i].passing <= target) p1 = valid[i]`:
keeps overwriting, so it returns the last element satisfying the bound.
The source computes `p1` and `p2` in a single loop; the two accumulators do
not interact, so they are modelled as two folds. -/
def findP1 (l : List Point) (t : ℚ) : Option Point :=
  l.foldl (fun acc p => if p.passing ≤ t then some p else acc) none

/-- The loop `if (valid[i].passing >= target && p2 === null) p2 = valid[i]`:
records the first element satisfying the bound. -/
def findP2 (l : List Point) (t : ℚ) : Option Point :=
  l.foldl (fun acc p => match acc with
    | some q => some q
    | none => if t ≤ p.passing then some p else none) none

/-- Outcome of `getDValue`, one constructor per `return` site, so that the
branch taken is visible in the result.  `exactHit` covers the two
exact-match returns, `flatRun` the `p2.passing === p1.passing` guard, and
`interp` carries the four inputs of the log-linear formula. -/
inductive DOut
  | dataShortage
  | outOfRange
  | exactHit (s : ℚ)
  | indeterminate
  | flatRun (s : ℚ)
  | interp (s1 s2 a1 a2 : ℚ)
deriving DecidableEq

/-- The tail of `getDValue` after the bracketing scan, shared by both
revisions.  `posGuard` is `true` for `App.tsx`, which has the extra
`p1.sieveSize <= 0 || p2.sieveSize <= 0` check absent from `part_000`.
JS compares `p1 === p2` by reference; since the checks before it force
`p1.passing < target < p2.passing` whenever both brackets exist and the
exact-match returns did not fire, reference and value equality coincide
there, so value equality is used. -/
def afterBracket (op1 op2 : Option Point) (t : ℚ) (posGuard : Bool) : DOut :=
  match op1, op2 with
  | some p1, some p2 =>
      if p1.passing = t then .exactHit p1.sieveSize
      else if p2.passing = t then .exactHit p2.sieveSize
      else if p1 = p2 then .indeterminate
      else if posGuard ∧ (p1.sieveSize ≤ 0 ∨ p2.sieveSize ≤ 0) then .indeterminate
      else if p2.passing = p1.passing then .flatRun p1.sieveSize
      else .interp p1.sieveSize p2.sieveSize p1.passing p2.passing
  | some p1, none => if p1.passing = t then .exactHit p1.sieveSize else .indeterminate
  | none, some p2 => if p2.passing = t then .exactHit p2.sieveSize else .indeterminate
  | none, none => .indeterminate

/-- A value of type `number | string` as returned by `getDValue` and stored
in a `ResultRow` field: a number, or one of the sentinel strings. -/
inductive DValue
  | na
  | dataShortage
  | outOfRange
  | indeterminate
  | num (x : ℝ)

/-- The log-linear interpolation formula of the source:
`logD = logD1 + ((logD2 - logD1) * (target - p1.passing)) / (p2.passing -
p1.passing)`, returned as `Math.pow(10, logD)`. -/
noncomputable def interpR (s1 s2 a1 a2 t : ℚ) : ℝ :=
  (10 : ℝ) ^ (Real.logb 10 s1 +
    ((Real.logb 10 s2 - Real.logb 10 s1) * ((t : ℝ) - (a1 : ℝ))) / ((a2 : ℝ) - (a1 : ℝ)))

/-- Realise a `DOut` as the `number | string` the source returns. -/
noncomputable def DOut.toReal (d : DOut) (t : ℚ) : DValue :=
  match d with
  | .dataShortage => .dataShortage
  | .outOfRange => .outOfRange
  | .exactHit s => .num s
  | .indeterminate => .indeterminate
  | .flatRun s => .num s
  | .interp s1 s2 a1 a2 => .num (interpR s1 s2 a1 a2 t)

namespace App

/-- `points.filter(p => p.sieveSize > 0 && !Number.isNaN(p.passing))`; the
NaN conjunct has no counterpart over `ℚ`. -/
def usable (points : List Point) : List Point :=
  points.filter fun p => decide (0 < p.sieveSize)

/-- `getDValue` of `App.tsx` (lines 122–157), up to the choice of branch:
filter usable points, require at least two, sort ascending by passing,
reject targets outside `[min, max]`, then scan for the bracketing pair. -/
def getDValueCore (points : List Point) (target : ℚ) : DOut :=
  let valid := usable points
  if valid.length < 2 then .dataShortage
  else
    let sorted := valid.insertionSort lePass
    if target < (sorted.headD default).passing ∨ (sorted.getLastD default).passing < target then
      .outOfRange
    else afterBracket (findP1 sorted target) (findP2 sorted target) target true

/-- `getDValue` of `App.tsx`, with the numeric branches realised over `ℝ`. -/
noncomputable def getDValue (points : List Point) (target : ℚ) : DValue :=
  (getDValueCore points target).toReal target

end App

namespace P000

/-- `getDValue` of `part_000` (lines 166–201), up to the choice of branch:
no filtering (the caller filters), sort by descending size and then by
passing, and no positivity guard on the bracketing sizes. -/
def getDValueCore (points : List Point) (target : ℚ) : DOut :=
  let sortedBySize := points.insertionSort leSizeDesc
  let sorted := sortedBySize.insertionSort lePass
  if sorted.length < 2 then .dataShortage
  else
    if target < (sorted.headD default).passing ∨ (sorted.getLastD default).passing < target then
      .outOfRange
    else afterBracket (findP1 sorted target) (findP2 sorted target) target false

/-- `getDValue` of `part_000`, with the numeric branches realised over `ℝ`. -/
noncomputable def getDValue (points : List Point) (target : ℚ) : DValue :=
  (getDValueCore points target).toReal target

end P000

/-- Abstraction of a grid cell string, recording exactly what the two JS
parsers can observe: `blank` (empty/whitespace-only, possibly a missing
key), `junk` (non-blank with no numeric prefix: both `Number` and
`parseFloat` give NaN), `mixed q` (numeric prefix `q` followed by junk:
`parseFloat` gives `q`, `Number` gives NaN), `num q` (fully numeric). -/
inductive Cell
  | blank
  | junk
  | mixed (q : ℚ)
  | num (q : ℚ)
deriving DecidableEq

/-- One row of the input grid: a sieve size and one cell per case column. -/
structure GridRow where
  sieveSize : ℚ
  cells : List Cell
deriving DecidableEq

instance : Inhabited GridRow := ⟨⟨0, []⟩⟩

/-- `row[caseName] ?? ""`: a missing column reads as the empty string. -/
def getCell (r : GridRow) (c : ℕ) : Cell :=
  r.cells.getD c .blank

/-- A `ValidationMessage`; the case is identified by its column index and
the message text is determined by the kind (`"0-100の値を入力"` for errors,
`"単調減少違反"` for warnings), so only the kind is kept. -/
structure Msg where
  rowIndex : ℕ
  caseIdx : ℕ
  isError : Bool
deriving DecidableEq

/-- Comparator `(a, b) => b.sieveSize - a.sieveSize` on grid rows. -/
def leRowDesc (a b : GridRow) : Prop := b.sieveSize ≤ a.sieveSize

instance : DecidableRel leRowDesc := fun a b => inferInstanceAs (Decidable (b.sieveSize ≤ a.sieveSize))

instance : IsTotal GridRow leRowDesc := ⟨fun a b => le_total b.sieveSize a.sieveSize⟩

instance : IsTrans GridRow leRowDesc := ⟨fun _ _ _ h h' => le_trans h' h⟩

/-- `messages.some(m => m.type === "error")`. -/
def hasError (msgs : List Msg) : Bool :=
  msgs.any fun m => m.isError

/-- A `ResultRow` for one case. -/
structure CaseResult where
  D10 : DValue
  D30 : DValue
  D60 : DValue
  Cu : DValue
  Cc : DValue

namespace App

/-- `toNumberOrNull` (App.tsx lines 112–119) over the cell abstraction:
`Number` of a blank string is guarded to `null`, and any string that is not
fully numeric parses to NaN, hence `null`. -/
def toNumberOrNull : Cell → Option ℚ
  | .num q => some q
  | _ => none

/-- The body of the `sorted.forEach` scan in `validateData` (App.tsx lines
188–204), acting on the state (`last`, messages so far). -/
def step (data : List GridRow) (c : ℕ) (st : Option ℚ × List Msg) (row : GridRow) :
    Option ℚ × List Msg :=
  let idx := data.findIdx fun d => decide (d.sieveSize = row.sieveSize)
  match toNumberOrNull (getCell row c) with
  | none => st
  | some v =>
      if v < 0 ∨ 100 < v then (st.1, st.2 ++ [⟨idx, c, true⟩])
      else
        match st.1 with
        | some l => if l < v then (some v, st.2 ++ [⟨idx, c, false⟩]) else (some v, st.2)
        | none => (some v, st.2)

/-- The scan of one case column over the descending-size row order. -/
def validateCase (data : List GridRow) (sorted : List GridRow) (c : ℕ) : List Msg :=
  ((sorted.foldl (step data c) (none, []))).2

/-- `validateData` (App.tsx lines 181–209): sort rows by descending size
once, then scan every case column, accumulating all messages in case
order. -/
def validateData (n : ℕ) (data : List GridRow) : List Msg :=
  let sorted := data.insertionSort leRowDesc
  ((List.range n).map fun c => validateCase data sorted c).flatten

/-- The per-case point list built in `handleCalculate` (App.tsx lines
234–239): parse each row's cell, keep rows with a numeric value and a
positive sieve size. -/
def casePoints (data : List GridRow) (c : ℕ) : List Point :=
  data.filterMap fun r =>
    match toNumberOrNull (getCell r c) with
    | some v => if 0 < r.sieveSize then some ⟨r.sieveSize, v⟩ else none
    | none => none

/-- The `Cu`/`Cc` block of `handleCalculate` (App.tsx lines 249–257):
`Cu = D60 / D10` when both are numbers and both positive, and then
`Cc = D30² / (D10·D60)` when `D30` is a positive number; `N/A` otherwise. -/
noncomputable def deriveCuCc (D10 D30 D60 : DValue) : DValue × DValue :=
  match D10, D60 with
  | .num d10, .num d60 =>
      if 0 < d10 ∧ 0 < d60 then
        (.num (d60 / d10),
          match D30 with
          | .num d30 => if 0 < d30 then .num (d30 * d30 / (d10 * d60)) else .na
          | _ => .na)
      else (.na, .na)
  | _, _ => (.na, .na)

/-- The per-case result record of `handleCalculate` (App.tsx lines
241–259): `N/A` sentinels below two points, otherwise the three D-values
and the guarded `Cu`/`Cc`. -/
noncomputable def computeCase (pts : List Point) : CaseResult :=
  if pts.length < 2 then ⟨.na, .na, .na, .na, .na⟩
  else
    let D10 := getDValue pts 10
    let D30 := getDValue pts 30
    let D60 := getDValue pts 60
    ⟨D10, D30, D60, (deriveCuCc D10 D30 D60).1, (deriveCuCc D10 D30 D60).2⟩

/-- `handleCalculate` (App.tsx lines 227–263) at the state level: if
validation reports any error the stored results are left unchanged
(the function alerts and returns), otherwise every case is recomputed. -/
noncomputable def handleCalculate (n : ℕ) (data : List GridRow) (prev : List CaseResult) :
    List CaseResult :=
  if hasError (validateData n data) then prev
  else (List.range n).map fun c => computeCase (casePoints data c)

end App

namespace P000

/-- `parseFloat` over the cell abstraction; `none` models NaN. -/
def parseFloatCell : Cell → Option ℚ
  | .num q => some q
  | .mixed q => some q
  | _ => none

/-- The body of the `sortedData.forEach` scan in `validateData` (part_000
lines 144–159): blanks are skipped, but a non-blank cell that parses to
NaN falls into the same error branch as an out-of-range value. -/
def step (data : List GridRow) (c : ℕ) (st : Option ℚ × List Msg) (row : GridRow) :
    Option ℚ × List Msg :=
  let idx := data.findIdx fun d => decide (d.sieveSize = row.sieveSize)
  match getCell row c with
  | .blank => st
  | cell =>
      match parseFloatCell cell with
      | none => (st.1, st.2 ++ [⟨idx, c, true⟩])
      | some v =>
          if v < 0 ∨ 100 < v then (st.1, st.2 ++ [⟨idx, c, true⟩])
          else
            match st.1 with
            | some l => if l < v then (some v, st.2 ++ [⟨idx, c, false⟩]) else (some v, st.2)
            | none => (some v, st.2)

/-- The scan of one case column over the descending-size row order. -/
def validateCase (data : List GridRow) (sorted : List GridRow) (c : ℕ) : List Msg :=
  ((sorted.foldl (step data c) (none, []))).2

/-- `validateData` (part_000 lines 138–164). -/
def validateData (n : ℕ) (data : List GridRow) : List Msg :=
  let sorted := data.insertionSort leRowDesc
  ((List.range n).map fun c => validateCase data sorted c).flatten

/-- The per-case point list built in `handleCalculate` (part_000 lines
210–215), using `parseFloat` instead of `Number`. -/
def casePoints (data : List GridRow) (c : ℕ) : List Point :=
  data.filterMap fun r =>
    match parseFloatCell (getCell r c) with
    | some v => if 0 < r.sieveSize then some ⟨r.sieveSize, v⟩ else none
    | none => none

/-- The `Cu`/`Cc` block of `handleCalculate` (part_000 lines 225–233):
`Cu` needs only `D10 > 0`, and `Cc` needs only `D30` numeric. -/
noncomputable def deriveCuCc (D10 D30 D60 : DValue) : DValue × DValue :=
  match D10, D60 with
  | .num d10, .num d60 =>
      if 0 < d10 then
        (.num (d60 / d10),
          match D30 with
          | .num d30 => .num (d30 * d30 / (d10 * d60))
          | _ => .na)
      else (.na, .na)
  | _, _ => (.na, .na)

/-- The per-case result record of `handleCalculate` (part_000 lines
217–235). -/
noncomputable def computeCase (pts : List Point) : CaseResult :=
  if pts.length < 2 then ⟨.na, .na, .na, .na, .na⟩
  else
    let D10 := getDValue pts 10
    let D30 := getDValue pts 30
    let D60 := getDValue pts 60
    ⟨D10, D30, D60, (deriveCuCc D10 D30 D60).1, (deriveCuCc D10 D30 D60).2⟩

/-- `handleCalculate` (part_000 lines 203–239) at the state level. -/
noncomputable def handleCalculate (n : ℕ) (data : List GridRow) (prev : List CaseResult) :
    List CaseResult :=
  if hasError (validateData n data) then prev
  else (List.range n).map fun c => computeCase (casePoints data c)

end P000

/-! ## Characterisation of the bracketing scans -/

/-- `(a :: l).getLast?` keeps the last element of `l` when there is one. -/
theorem getLast?_cons_eq_or (a : Point) (l : List Point) :
    (a :: l).getLast? = l.getLast?.or (some a) := by
  cases l with
  | nil => rfl
  | cons b m =>
      rw [List.getLast?_cons_cons]
      cases h : (b :: m).getLast? with
      | none => exact absurd (List.getLast?_eq_none_iff.mp h) (by simp)
      | some x => rfl

theorem findP1_foldl (t : ℚ) (l : List Point) (acc : Option Point) :
    l.foldl (fun acc p => if p.passing ≤ t then some p else acc) acc =
      ((l.filter fun p => decide (p.passing ≤ t)).getLast?).or acc := by
  induction l generalizing acc with
  | nil => simp
  | cons p ps ih =>
      rw [List.foldl_cons, ih]
      by_cases h : p.passing ≤ t
      · rw [if_pos h, List.filter_cons_of_pos (by simpa using h), getLast?_cons_eq_or,
          Option.or_assoc]
        rfl
      · rw [if_neg h, List.filter_cons_of_neg (by simpa using h)]

/-- The `p1` scan returns the last point of the list with `passing ≤ target`. -/
theorem findP1_eq (l : List Point) (t : ℚ) :
    findP1 l t = (l.filter fun p => decide (p.passing ≤ t)).getLast? := by
  rw [findP1, findP1_foldl, Option.or_none]

theorem findP2_foldl_some (t : ℚ) (l : List Point) (q : Point) :
    l.foldl (fun acc p => match acc with
      | some q => some q
      | none => if t ≤ p.passing then some p else none) (some q) = some q := by
  induction l with
  | nil => rfl
  | cons p ps ih => exact ih

/-- The `p2` scan returns the first point of the list with `passing ≥ target`. -/
theorem findP2_eq (l : List Point) (t : ℚ) :
    findP2 l t = l.find? fun p => decide (t ≤ p.passing) := by
  rw [findP2]
  induction l with
  | nil => rfl
  | cons p ps ih =>
      rw [List.foldl_cons]
      by_cases h : t ≤ p.passing
      · rw [if_pos h, findP2_foldl_some, List.find?_cons_of_pos _ (by simpa using h)]
      · rw [if_neg h, List.find?_cons_of_neg _ (by simpa using h)]
        exact ih

theorem findP1_mem {l : List Point} {t : ℚ} {p : Point} (h : findP1 l t = some p) : p ∈ l := by
  rw [findP1_eq] at h
  exact (List.mem_filter.mp (List.mem_of_getLast?_eq_some h)).1

theorem findP1_le {l : List Point} {t : ℚ} {p : Point} (h : findP1 l t = some p) :
    p.passing ≤ t := by
  rw [findP1_eq] at h
  simpa using (List.mem_filter.mp (List.mem_of_getLast?_eq_some h)).2

theorem findP1_none {l : List Point} {t : ℚ} (h : findP1 l t = none) :
    ∀ q ∈ l, ¬ q.passing ≤ t := by
  rw [findP1_eq, List.getLast?_eq_none_iff, List.filter_eq_nil_iff] at h
  intro q hq
  simpa using h q hq

theorem findP1_isSome {l : List Point} {t : ℚ} {q : Point} (hq : q ∈ l)
    (hqt : q.passing ≤ t) : ∃ p, findP1 l t = some p := by
  cases h : findP1 l t with
  | none => exact absurd hqt (findP1_none h q hq)
  | some p => exact ⟨p, rfl⟩

theorem findP2_mem {l : List Point} {t : ℚ} {p : Point} (h : findP2 l t = some p) : p ∈ l := by
  rw [findP2_eq] at h
  exact List.mem_of_find?_eq_some h

theorem findP2_ge {l : List Point} {t : ℚ} {p : Point} (h : findP2 l t = some p) :
    t ≤ p.passing := by
  rw [findP2_eq] at h
  simpa using List.find?_some h

theorem findP2_none {l : List Point} {t : ℚ} (h : findP2 l t = none) :
    ∀ q ∈ l, ¬ t ≤ q.passing := by
  rw [findP2_eq, List.find?_eq_none] at h
  intro q hq
  simpa using h q hq

theorem findP2_isSome {l : List Point} {t : ℚ} {q : Point} (hq : q ∈ l)
    (hqt : t ≤ q.passing) : ∃ p, findP2 l t = some p := by
  cases h : findP2 l t with
  | none => exact absurd hqt (findP2_none h q hq)
  | some p => exact ⟨p, rfl⟩

/-! ## Order facts on sorted point lists -/

theorem getLast?_max_of_sorted :
    ∀ {l : List Point}, l.Pairwise lePass → l.getLast? = some p →
      ∀ q ∈ l, q.passing ≤ p.passing := by
  intro l
  induction l with
  | nil => intro _ h; cases h
  | cons a m ih =>
      intro hs hl q hq
      cases m with
      | nil =>
          simp only [List.getLast?_singleton, Option.some.injEq] at hl
          rcases List.mem_singleton.mp hq with rfl
          exact hl ▸ le_refl _
      | cons b m' =>
          rw [List.getLast?_cons_cons] at hl
          rcases List.mem_cons.mp hq with rfl | hq'
          · exact (List.rel_of_pairwise_cons hs (List.mem_of_getLast?_eq_some hl) : lePass q p)
          · exact ih hs.of_cons hl q hq'

theorem findP1_max_of_sorted {l : List Point} {t : ℚ} {p : Point}
    (hs : l.Pairwise lePass) (h : findP1 l t = some p) :
    ∀ q ∈ l, q.passing ≤ t → q.passing ≤ p.passing := by
  rw [findP1_eq] at h
  intro q hq hqt
  exact getLast?_max_of_sorted (hs.filter _) h q
    (List.mem_filter.mpr ⟨hq, by simpa using hqt⟩)

theorem findP2_min_of_sorted :
    ∀ {l : List Point}, l.Pairwise lePass → findP2 l t = some p →
      ∀ q ∈ l, t ≤ q.passing → p.passing ≤ q.passing := by
  intro l
  induction l with
  | nil => intro _ h; rw [findP2_eq] at h; cases h
  | cons a m ih =>
      intro hs h q hq hqt
      rw [findP2_eq] at h
      by_cases ha : t ≤ a.passing
      · rw [List.find?_cons_of_pos _ (by simpa using ha), Option.some.injEq] at h
        rcases List.mem_cons.mp hq with rfl | hq'
        · exact h ▸ le_refl _
        · exact h ▸ (List.rel_of_pairwise_cons hs hq' : lePass a q)
      · rw [List.find?_cons_of_neg _ (by simpa using ha)] at h
        rcases List.mem_cons.mp hq with rfl | hq'
        · exact absurd hqt ha
        · exact ih hs.of_cons (by rw [findP2_eq]; exact h) q hq' hqt

theorem headD_mem {l : List Point} (h : l ≠ []) (d : Point) : l.headD d ∈ l := by
  cases l with
  | nil => exact absurd rfl h
  | cons a m => exact List.mem_cons_self a m

theorem headD_min_of_sorted {l : List Point} (hs : l.Pairwise lePass) {q : Point}
    (hq : q ∈ l) (d : Point) : (l.headD d).passing ≤ q.passing := by
  cases l with
  | nil => cases hq
  | cons a m =>
      rcases List.mem_cons.mp hq with rfl | hq'
      · exact le_refl _
      · exact (List.rel_of_pairwise_cons hs hq' : lePass a q)

theorem getLastD_mem {l : List Point} (h : l ≠ []) (d : Point) : l.getLastD d ∈ l := by
  rw [List.getLastD_eq_getLast?]
  cases hl : l.getLast? with
  | none => exact absurd (List.getLast?_eq_none_iff.mp hl) h
  | some x => exact List.mem_of_getLast?_eq_some hl

theorem getLastD_max_of_sorted {l : List Point} (hs : l.Pairwise lePass) {q : Point}
    (hq : q ∈ l) (d : Point) : q.passing ≤ (l.getLastD d).passing := by
  have hne : l ≠ [] := List.ne_nil_of_mem hq
  rw [List.getLastD_eq_getLast?]
  cases hl : l.getLast? with
  | none => exact absurd (List.getLast?_eq_none_iff.mp hl) hne
  | some x => exact getLast?_max_of_sorted hs hl q hq

/-! ## Case analysis on `afterBracket` -/

theorem afterBracket_ne_shortage (op1 op2 : Option Point) (t : ℚ) (g : Bool) :
    afterBracket op1 op2 t g ≠ .dataShortage := by
  rcases op1 with _ | p1 <;> rcases op2 with _ | p2 <;> simp only [afterBracket] <;>
    (try split_ifs) <;> simp

theorem afterBracket_ne_outOfRange (op1 op2 : Option Point) (t : ℚ) (g : Bool) :
    afterBracket op1 op2 t g ≠ .outOfRange := by
  rcases op1 with _ | p1 <;> rcases op2 with _ | p2 <;> simp only [afterBracket] <;>
    (try split_ifs) <;> simp

/-- The flat-run guard `p2.passing === p1.passing` can never fire when the
brackets come from the scans: the exact-match returns have already handled
`passing = target` on both sides, leaving `p1.passing < t < p2.passing`. -/
theorem afterBracket_ne_flatRun (l : List Point) (t : ℚ) (g : Bool) (s : ℚ) :
    afterBracket (findP1 l t) (findP2 l t) t g ≠ .flatRun s := by
  cases h1 : findP1 l t with
  | none =>
      cases h2 : findP2 l t <;> simp only [afterBracket] <;> (try split_ifs) <;> simp
  | some p1 =>
      cases h2 : findP2 l t with
      | none => simp only [afterBracket]; split_ifs <;> simp
      | some p2 =>
          have hle1 : p1.passing ≤ t := findP1_le h1
          have hle2 : t ≤ p2.passing := findP2_ge h2
          simp only [afterBracket]
          split_ifs with hA hB hC hD hE
          · simp
          · simp
          · simp
          · simp
          · exact absurd (le_antisymm hle1 (hE ▸ hle2)) hA
          · simp

/-- If `afterBracket` over the scans returns an exact hit, some list point
has `passing = target` and supplies the returned size. -/
theorem afterBracket_exact {l : List Point} {t : ℚ} {g : Bool} {s : ℚ}
    (h : afterBracket (findP1 l t) (findP2 l t) t g = .exactHit s) :
    ∃ p ∈ l, p.passing = t ∧ s = p.sieveSize := by
  cases h1 : findP1 l t with
  | none =>
      cases h2 : findP2 l t with
      | none => rw [h1, h2] at h; simp [afterBracket] at h
      | some p2 =>
          rw [h1, h2] at h
          simp only [afterBracket] at h
          split_ifs at h with hB
          refine ⟨p2, findP2_mem h2, hB, ?_⟩
          injection h with h'
          exact h'.symm
  | some p1 =>
      cases h2 : findP2 l t with
      | none =>
          rw [h1, h2] at h
          simp only [afterBracket] at h
          split_ifs at h with hA
          refine ⟨p1, findP1_mem h1, hA, ?_⟩
          injection h with h'
          exact h'.symm
      | some p2 =>
          rw [h1, h2] at h
          simp only [afterBracket] at h
          split_ifs at h with hA hB hC hD hE
          · refine ⟨p1, findP1_mem h1, hA, ?_⟩
            injection h with h'
            exact h'.symm
          · refine ⟨p2, findP2_mem h2, hB, ?_⟩
            injection h with h'
            exact h'.symm

/-- If `afterBracket` over the scans returns the interpolation data, both
brackets exist and bracket the target strictly. -/
theorem afterBracket_interp {l : List Point} {t : ℚ} {g : Bool} {s1 s2 a1 a2 : ℚ}
    (h : afterBracket (findP1 l t) (findP2 l t) t g = .interp s1 s2 a1 a2) :
    ∃ p1 p2, findP1 l t = some p1 ∧ findP2 l t = some p2 ∧
      s1 = p1.sieveSize ∧ s2 = p2.sieveSize ∧ a1 = p1.passing ∧ a2 = p2.passing ∧
      a1 < t ∧ t < a2 := by
  cases h1 : findP1 l t with
  | none =>
      cases h2 : findP2 l t with
      | none => rw [h1, h2] at h; simp [afterBracket] at h
      | some p2 =>
          rw [h1, h2] at h
          simp only [afterBracket] at h
          split_ifs at h
  | some p1 =>
      cases h2 : findP2 l t with
      | none =>
          rw [h1, h2] at h
          simp only [afterBracket] at h
          split_ifs at h
      | some p2 =>
          rw [h1, h2] at h
          simp only [afterBracket] at h
          split_ifs at h with hA hB hC hD hE
          injection h with e1 e2 e3 e4
          subst e1; subst e2; subst e3; subst e4
          exact ⟨p1, p2, rfl, rfl, rfl, rfl, rfl, rfl,
            lt_of_le_of_ne (findP1_le h1) hA,
            lt_of_le_of_ne (findP2_ge h2) fun e => hB e.symm⟩

/-- A numeric realised result forces both brackets to exist. -/
theorem afterBracket_num_some {l : List Point} {t : ℚ} {g : Bool} {x : ℝ}
    (h : (afterBracket (findP1 l t) (findP2 l t) t g).toReal t = .num x) :
    ∃ p1 p2, findP1 l t = some p1 ∧ findP2 l t = some p2 := by
  cases h1 : findP1 l t with
  | none =>
      cases h2 : findP2 l t with
      | none => rw [h1, h2] at h; simp [afterBracket, DOut.toReal] at h
      | some p2 =>
          rw [h1, h2] at h
          simp only [afterBracket] at h
          split_ifs at h with hB
          · exact absurd (le_of_eq hB) (findP1_none h1 p2 (findP2_mem h2))
          · simp [DOut.toReal] at h
  | some p1 =>
      cases h2 : findP2 l t with
      | none =>
          rw [h1, h2] at h
          simp only [afterBracket] at h
          split_ifs at h with hA
          · exact absurd hA.ge (findP2_none h2 p1 (findP1_mem h1))
          · simp [DOut.toReal] at h
      | some p2 => exact ⟨p1, p2, rfl, rfl⟩

/-! ## Unfolding the two cores -/

/-- The local `sorted` list of `App.getDValue`. -/
def App.sortedValid (pts : List Point) : List Point :=
  (App.usable pts).insertionSort lePass

/-- The local `sortedByPassing` list of `P000.getDValue`. -/
def P000.sortedValid (pts : List Point) : List Point :=
  (pts.insertionSort leSizeDesc).insertionSort lePass

theorem App.getDValueCore_eq (pts : List Point) (t : ℚ) :
    App.getDValueCore pts t =
      if (App.usable pts).length < 2 then .dataShortage
      else if t < ((App.sortedValid pts).headD default).passing ∨
          ((App.sortedValid pts).getLastD default).passing < t then .outOfRange
      else afterBracket (findP1 (App.sortedValid pts) t) (findP2 (App.sortedValid pts) t) t
        true := rfl

theorem P000.p0_getDValueCore_eq (pts : List Point) (t : ℚ) :
    P000.getDValueCore pts t =
      if (P000.sortedValid pts).length < 2 then .dataShortage
      else if t < ((P000.sortedValid pts).headD default).passing ∨
          ((P000.sortedValid pts).getLastD default).passing < t then .outOfRange
      else afterBracket (findP1 (P000.sortedValid pts) t) (findP2 (P000.sortedValid pts) t) t
        false := rfl

theorem App.sortedValid_sorted (pts : List Point) : (App.sortedValid pts).Pairwise lePass :=
  List.sorted_insertionSort lePass (App.usable pts)

theorem P000.p0_sortedValid_sorted (pts : List Point) : (P000.sortedValid pts).Pairwise lePass :=
  List.sorted_insertionSort lePass (pts.insertionSort leSizeDesc)

theorem App.mem_sortedValid {pts : List Point} {p : Point} :
    p ∈ App.sortedValid pts ↔ p ∈ pts ∧ 0 < p.sieveSize := by
  rw [App.sortedValid, List.mem_insertionSort, App.usable, List.mem_filter]
  simp

theorem P000.p0_mem_sortedValid {pts : List Point} {p : Point} :
    p ∈ P000.sortedValid pts ↔ p ∈ pts := by
  rw [P000.sortedValid, List.mem_insertionSort, List.mem_insertionSort]

theorem App.sortedValid_pos {pts : List Point} {p : Point} (hp : p ∈ App.sortedValid pts) :
    0 < p.sieveSize :=
  (App.mem_sortedValid.mp hp).2

/-- A numeric result of `App.getDValue` comes out of the bracketing tail. -/
theorem App.getDValue_num_elim {pts : List Point} {t : ℚ} {x : ℝ}
    (h : App.getDValue pts t = .num x) :
    (afterBracket (findP1 (App.sortedValid pts) t) (findP2 (App.sortedValid pts) t) t
      true).toReal t = .num x := by
  rw [App.getDValue, App.getDValueCore_eq] at h
  split_ifs at h with h1 h2
  · simp [DOut.toReal] at h
  · simp [DOut.toReal] at h
  · exact h

/-- A numeric result of `P000.getDValue` comes out of the bracketing tail. -/
theorem P000.p0_getDValue_num_elim {pts : List Point} {t : ℚ} {x : ℝ}
    (h : P000.getDValue pts t = .num x) :
    (afterBracket (findP1 (P000.sortedValid pts) t) (findP2 (P000.sortedValid pts) t) t
      false).toReal t = .num x := by
  rw [P000.getDValue, P000.p0_getDValueCore_eq] at h
  split_ifs at h with h1 h2
  · simp [DOut.toReal] at h
  · simp [DOut.toReal] at h
  · exact h

theorem App.getDValueCore_ne_flatRun (pts : List Point) (t : ℚ) (s : ℚ) :
    App.getDValueCore pts t ≠ .flatRun s := by
  rw [App.getDValueCore_eq]
  split_ifs
  all_goals first
  | exact afterBracket_ne_flatRun _ _ _ _
  | simp

theorem P000.p0_getDValueCore_ne_flatRun (pts : List Point) (t : ℚ) (s : ℚ) :
    P000.getDValueCore pts t ≠ .flatRun s := by
  rw [P000.p0_getDValueCore_eq]
  split_ifs
  all_goals first
  | exact afterBracket_ne_flatRun _ _ _ _
  | simp

/-- An exact hit of `App.getDValue` returns the sieve size of a usable
input point with `passing = target`. -/
theorem App.getDValueCore_exact {pts : List Point} {t s : ℚ}
    (h : App.getDValueCore pts t = .exactHit s) :
    ∃ p ∈ pts, 0 < p.sieveSize ∧ p.passing = t ∧ s = p.sieveSize := by
  rw [App.getDValueCore_eq] at h
  split_ifs at h
  obtain ⟨p, hp, hpt, hps⟩ := afterBracket_exact h
  obtain ⟨hp1, hp2⟩ := App.mem_sortedValid.mp hp
  exact ⟨p, hp1, hp2, hpt, hps⟩

theorem P000.p0_getDValueCore_exact {pts : List Point} {t s : ℚ}
    (h : P000.getDValueCore pts t = .exactHit s) :
    ∃ p ∈ pts, p.passing = t ∧ s = p.sieveSize := by
  rw [P000.p0_getDValueCore_eq] at h
  split_ifs at h
  obtain ⟨p, hp, hpt, hps⟩ := afterBracket_exact h
  exact ⟨p, P000.p0_mem_sortedValid.mp hp, hpt, hps⟩

/-! ## The interpolation formula over `ℝ` -/

theorem interpR_pos (s1 s2 a1 a2 t : ℚ) : 0 < interpR s1 s2 a1 a2 t :=
  Real.rpow_pos_of_pos (by norm_num) _

theorem interpR_bounds {s1 s2 a1 a2 t : ℚ} (hs1 : 0 < s1) (hs2 : 0 < s2) (hss : s1 ≤ s2)
    (ha : a1 < a2) (ht1 : a1 ≤ t) (ht2 : t ≤ a2) :
    (s1 : ℝ) ≤ interpR s1 s2 a1 a2 t ∧ interpR s1 s2 a1 a2 t ≤ (s2 : ℝ) := by
  have hb : (1 : ℝ) < 10 := by norm_num
  have hs1R : (0 : ℝ) < (s1 : ℝ) := by exact_mod_cast hs1
  have hs2R : (0 : ℝ) < (s2 : ℝ) := by exact_mod_cast hs2
  have hL : Real.logb 10 (s1 : ℝ) ≤ Real.logb 10 (s2 : ℝ) :=
    Real.logb_le_logb_of_le hb hs1R (by exact_mod_cast hss)
  have haR : (a1 : ℝ) < (a2 : ℝ) := by exact_mod_cast ha
  have ht1R : (a1 : ℝ) ≤ (t : ℝ) := by exact_mod_cast ht1
  have ht2R : (t : ℝ) ≤ (a2 : ℝ) := by exact_mod_cast ht2
  have hfrac0 : 0 ≤ ((t : ℝ) - (a1 : ℝ)) / ((a2 : ℝ) - (a1 : ℝ)) :=
    div_nonneg (by linarith) (by linarith)
  have hfrac1 : ((t : ℝ) - (a1 : ℝ)) / ((a2 : ℝ) - (a1 : ℝ)) ≤ 1 :=
    (div_le_one (by linarith)).mpr (by linarith)
  have hE1 : Real.logb 10 (s1 : ℝ) ≤ Real.logb 10 (s1 : ℝ) +
      ((Real.logb 10 (s2 : ℝ) - Real.logb 10 (s1 : ℝ)) * ((t : ℝ) - (a1 : ℝ))) /
        ((a2 : ℝ) - (a1 : ℝ)) := by
    have h0 : 0 ≤ ((Real.logb 10 (s2 : ℝ) - Real.logb 10 (s1 : ℝ)) * ((t : ℝ) - (a1 : ℝ))) /
        ((a2 : ℝ) - (a1 : ℝ)) := by
      rw [mul_div_assoc]
      exact mul_nonneg (by linarith) hfrac0
    linarith
  have hE2 : Real.logb 10 (s1 : ℝ) +
      ((Real.logb 10 (s2 : ℝ) - Real.logb 10 (s1 : ℝ)) * ((t : ℝ) - (a1 : ℝ))) /
        ((a2 : ℝ) - (a1 : ℝ)) ≤ Real.logb 10 (s2 : ℝ) := by
    have h0 : ((Real.logb 10 (s2 : ℝ) - Real.logb 10 (s1 : ℝ)) * ((t : ℝ) - (a1 : ℝ))) /
        ((a2 : ℝ) - (a1 : ℝ)) ≤ Real.logb 10 (s2 : ℝ) - Real.logb 10 (s1 : ℝ) := by
      rw [mul_div_assoc]
      exact mul_le_of_le_one_right (by linarith) hfrac1
    linarith
  have hid1 : (10 : ℝ) ^ Real.logb 10 (s1 : ℝ) = (s1 : ℝ) :=
    Real.rpow_logb (by norm_num) (by norm_num) hs1R
  have hid2 : (10 : ℝ) ^ Real.logb 10 (s2 : ℝ) = (s2 : ℝ) :=
    Real.rpow_logb (by norm_num) (by norm_num) hs2R
  have hlo : (10 : ℝ) ^ Real.logb 10 (s1 : ℝ) ≤ interpR s1 s2 a1 a2 t := by
    rw [interpR]
    exact (Real.rpow_le_rpow_left_iff hb).mpr hE1
  have hhi : interpR s1 s2 a1 a2 t ≤ (10 : ℝ) ^ Real.logb 10 (s2 : ℝ) := by
    rw [interpR]
    exact (Real.rpow_le_rpow_left_iff hb).mpr hE2
  constructor
  · linarith [hid1.ge, hlo]
  · linarith [hid2.le, hhi]

theorem interpR_mono {s1 s2 a1 a2 t t' : ℚ} (hs1 : 0 < s1) (hs2 : 0 < s2) (hss : s1 ≤ s2)
    (ha : a1 < a2) (htt : t ≤ t') :
    interpR s1 s2 a1 a2 t ≤ interpR s1 s2 a1 a2 t' := by
  have hb : (1 : ℝ) < 10 := by norm_num
  have hs1R : (0 : ℝ) < (s1 : ℝ) := by exact_mod_cast hs1
  have hs2R : (0 : ℝ) < (s2 : ℝ) := by exact_mod_cast hs2
  have hL : Real.logb 10 (s1 : ℝ) ≤ Real.logb 10 (s2 : ℝ) :=
    Real.logb_le_logb_of_le hb hs1R (by exact_mod_cast hss)
  have haR : (a1 : ℝ) < (a2 : ℝ) := by exact_mod_cast ha
  have httR : (t : ℝ) ≤ (t' : ℝ) := by exact_mod_cast htt
  rw [interpR, interpR]
  apply (Real.rpow_le_rpow_left_iff hb).mpr
  have key : ((Real.logb 10 (s2 : ℝ) - Real.logb 10 (s1 : ℝ)) * ((t : ℝ) - (a1 : ℝ))) /
      ((a2 : ℝ) - (a1 : ℝ)) ≤
      ((Real.logb 10 (s2 : ℝ) - Real.logb 10 (s1 : ℝ)) * (((t' : ℝ)) - (a1 : ℝ))) /
      ((a2 : ℝ) - (a1 : ℝ)) := by
    apply div_le_div_of_nonneg_right ?_ (by linarith)
    exact mul_le_mul_of_nonneg_left (by linarith) (by linarith)
  linarith

/-! ## Positivity of numeric results -/

theorem App.getDValue_pos {pts : List Point} {t : ℚ} {x : ℝ}
    (h : App.getDValue pts t = .num x) : 0 < x := by
  rw [App.getDValue] at h
  rcases hd : App.getDValueCore pts t with _ | _ | s | _ | s | ⟨s1, s2, a1, a2⟩
  · rw [hd] at h; simp [DOut.toReal] at h
  · rw [hd] at h; simp [DOut.toReal] at h
  · rw [hd] at h
    simp only [DOut.toReal, DValue.num.injEq] at h
    obtain ⟨p, _, hp2, _, hs⟩ := App.getDValueCore_exact hd
    subst hs
    rw [← h]
    exact_mod_cast hp2
  · rw [hd] at h; simp [DOut.toReal] at h
  · exact absurd hd (App.getDValueCore_ne_flatRun pts t s)
  · rw [hd] at h
    simp only [DOut.toReal, DValue.num.injEq] at h
    rw [← h]
    exact interpR_pos s1 s2 a1 a2 t

theorem P000.p0_getDValue_pos {pts : List Point} {t : ℚ} {x : ℝ}
    (hpos : ∀ p ∈ pts, 0 < p.sieveSize) (h : P000.getDValue pts t = .num x) : 0 < x := by
  rw [P000.getDValue] at h
  rcases hd : P000.getDValueCore pts t with _ | _ | s | _ | s | ⟨s1, s2, a1, a2⟩
  · rw [hd] at h; simp [DOut.toReal] at h
  · rw [hd] at h; simp [DOut.toReal] at h
  · rw [hd] at h
    simp only [DOut.toReal, DValue.num.injEq] at h
    obtain ⟨p, hp, _, hs⟩ := P000.p0_getDValueCore_exact hd
    subst hs
    rw [← h]
    exact_mod_cast hpos p hp
  · rw [hd] at h; simp [DOut.toReal] at h
  · exact absurd hd (P000.p0_getDValueCore_ne_flatRun pts t s)
  · rw [hd] at h
    simp only [DOut.toReal, DValue.num.injEq] at h
    rw [← h]
    exact interpR_pos s1 s2 a1 a2 t

/-! ## Reaching the bracketing tail -/

theorem range_check_neg {v : List Point} {t : ℚ} (hs : v.Pairwise lePass)
    (h1 : ∃ p ∈ v, p.passing ≤ t) (h2 : ∃ p ∈ v, t ≤ p.passing) :
    ¬ (t < (v.headD default).passing ∨ (v.getLastD default).passing < t) := by
  push_neg
  obtain ⟨p, hp, hpt⟩ := h1
  obtain ⟨q, hq, hqt⟩ := h2
  exact ⟨le_trans (headD_min_of_sorted hs hp default) hpt,
    le_trans hqt (getLastD_max_of_sorted hs hq default)⟩

theorem App.getDValueCore_bracket {pts : List Point} {t : ℚ}
    (hlen : ¬ (App.usable pts).length < 2)
    (h1 : ∃ p ∈ App.sortedValid pts, p.passing ≤ t)
    (h2 : ∃ p ∈ App.sortedValid pts, t ≤ p.passing) :
    App.getDValueCore pts t =
      afterBracket (findP1 (App.sortedValid pts) t) (findP2 (App.sortedValid pts) t) t true := by
  rw [App.getDValueCore_eq, if_neg hlen,
    if_neg (range_check_neg (App.sortedValid_sorted pts) h1 h2)]

theorem P000.p0_getDValueCore_bracket {pts : List Point} {t : ℚ}
    (hlen : ¬ (P000.sortedValid pts).length < 2)
    (h1 : ∃ p ∈ P000.sortedValid pts, p.passing ≤ t)
    (h2 : ∃ p ∈ P000.sortedValid pts, t ≤ p.passing) :
    P000.getDValueCore pts t =
      afterBracket (findP1 (P000.sortedValid pts) t) (findP2 (P000.sortedValid pts) t) t
        false := by
  rw [P000.p0_getDValueCore_eq, if_neg hlen,
    if_neg (range_check_neg (P000.p0_sortedValid_sorted pts) h1 h2)]

theorem head_lt_iff {v : List Point} {t : ℚ} (hs : v.Pairwise lePass) (hne : v ≠ []) :
    (t < (v.headD default).passing) ↔ ∀ p ∈ v, t < p.passing :=
  ⟨fun h _ hq => lt_of_lt_of_le h (headD_min_of_sorted hs hq default),
   fun h => h _ (headD_mem hne default)⟩

theorem getLast_lt_iff {v : List Point} {t : ℚ} (hs : v.Pairwise lePass) (hne : v ≠ []) :
    ((v.getLastD default).passing < t) ↔ ∀ p ∈ v, p.passing < t :=
  ⟨fun h _ hq => lt_of_le_of_lt (getLastD_max_of_sorted hs hq default) h,
   fun h => h _ (getLastD_mem hne default)⟩

theorem DOut.toReal_eq_shortage {d : DOut} {t : ℚ} :
    d.toReal t = DValue.dataShortage ↔ d = .dataShortage := by
  cases d <;> simp [DOut.toReal]

theorem DOut.toReal_eq_outOfRange {d : DOut} {t : ℚ} :
    d.toReal t = DValue.outOfRange ↔ d = .outOfRange := by
  cases d <;> simp [DOut.toReal]

/-- The interpolation branch of `App.getDValue` brackets the target
strictly. -/
theorem App.getDValueCore_interp {pts : List Point} {t s1 s2 a1 a2 : ℚ}
    (h : App.getDValueCore pts t = .interp s1 s2 a1 a2) : a1 < t ∧ t < a2 := by
  rw [App.getDValueCore_eq] at h
  split_ifs at h
  obtain ⟨p1, p2, -, -, -, -, -, -, h7, h8⟩ := afterBracket_interp h
  exact ⟨h7, h8⟩

theorem P000.p0_getDValueCore_interp {pts : List Point} {t s1 s2 a1 a2 : ℚ}
    (h : P000.getDValueCore pts t = .interp s1 s2 a1 a2) : a1 < t ∧ t < a2 := by
  rw [P000.p0_getDValueCore_eq] at h
  split_ifs at h
  obtain ⟨p1, p2, -, -, -, -, -, -, h7, h8⟩ := afterBracket_interp h
  exact ⟨h7, h8⟩

/-! ## Claims -/

/-- C9: whenever `getDValue` (either revision) reaches the log-linear
interpolation formula, `p1.passing < target < p2.passing` holds strictly,
so the divisor `p2.passing - p1.passing` is nonzero; and the flat-run
guard branch (`p2.passing === p1.passing` after the exact-match checks) is
unreachable. -/
theorem C9_flat_guard_unreachable :
    (∀ pts t s, App.getDValueCore pts t ≠ .flatRun s) ∧
    (∀ pts t s, P000.getDValueCore pts t ≠ .flatRun s) ∧
    (∀ pts t s1 s2 a1 a2, App.getDValueCore pts t = .interp s1 s2 a1 a2 →
      a1 < t ∧ t < a2 ∧ a2 - a1 ≠ 0) ∧
    (∀ pts t s1 s2 a1 a2, P000.getDValueCore pts t = .interp s1 s2 a1 a2 →
      a1 < t ∧ t < a2 ∧ a2 - a1 ≠ 0) := by
  refine ⟨fun pts t s => App.getDValueCore_ne_flatRun pts t s,
    fun pts t s => P000.p0_getDValueCore_ne_flatRun pts t s, ?_, ?_⟩
  · intro pts t s1 s2 a1 a2 h
    obtain ⟨h1, h2⟩ := App.getDValueCore_interp h
    exact ⟨h1, h2, by intro e; linarith⟩
  · intro pts t s1 s2 a1 a2 h
    obtain ⟨h1, h2⟩ := P000.p0_getDValueCore_interp h
    exact ⟨h1, h2, by intro e; linarith⟩

theorem C9_witness :
    App.getDValueCore [⟨10, 10⟩, ⟨1, 60⟩] 30 = .interp 10 1 10 60 ∧
      ((10 : ℚ) < 30 ∧ (30 : ℚ) < 60 ∧ (60 : ℚ) - 10 ≠ 0) :=
  ⟨by decide, C9_flat_guard_unreachable.2.2.1 [⟨10, 10⟩, ⟨1, 60⟩] 30 10 1 10 60 (by decide)⟩

/-- C2: `getDValue` returns the `InsufficientData` sentinel (`データ不足`)
iff fewer than two usable points are supplied, and the `OutOfRange`
sentinel (`範囲外`) iff at least two usable points are supplied and the
target is strictly below every usable passing value or strictly above
every usable passing value (i.e. outside the `[min, max]` span). -/
theorem C2_sentinels (pts : List Point) (t : ℚ) :
    (App.getDValue pts t = .dataShortage ↔ (App.usable pts).length < 2) ∧
    (App.getDValue pts t = .outOfRange ↔
      2 ≤ (App.usable pts).length ∧
        ((∀ p ∈ App.usable pts, t < p.passing) ∨ (∀ p ∈ App.usable pts, p.passing < t))) := by
  have hperm : List.Perm (App.sortedValid pts) (App.usable pts) :=
    List.perm_insertionSort _ _
  have hmem : ∀ p : Point, p ∈ App.sortedValid pts ↔ p ∈ App.usable pts :=
    fun p => hperm.mem_iff
  have hs := App.sortedValid_sorted pts
  have hlenv : (App.sortedValid pts).length = (App.usable pts).length :=
    List.length_insertionSort _ _
  rw [App.getDValue, App.getDValueCore_eq]
  by_cases hlen : (App.usable pts).length < 2
  · rw [if_pos hlen]
    refine ⟨by simp [DOut.toReal, hlen], ?_⟩
    simp only [DOut.toReal]
    constructor
    · intro h; simp at h
    · rintro ⟨h2, -⟩; omega
  · rw [if_neg hlen]
    have hne : App.sortedValid pts ≠ [] := by
      intro e
      rw [e] at hlenv
      simp at hlenv
      omega
    by_cases hr : t < ((App.sortedValid pts).headD default).passing ∨
        ((App.sortedValid pts).getLastD default).passing < t
    · rw [if_pos hr]
      constructor
      · simp only [DOut.toReal]
        constructor
        · intro h; simp at h
        · intro h; omega
      · simp only [DOut.toReal]
        refine ⟨fun _ => ⟨by omega, ?_⟩, fun _ => trivial⟩
        rcases hr with h | h
        · exact Or.inl fun p hp => (head_lt_iff hs hne).mp h p ((hmem p).mpr hp)
        · exact Or.inr fun p hp => (getLast_lt_iff hs hne).mp h p ((hmem p).mpr hp)
    · rw [if_neg hr]
      push_neg at hr
      constructor
      · rw [DOut.toReal_eq_shortage]
        constructor
        · intro h; exact absurd h (afterBracket_ne_shortage _ _ _ _)
        · intro h; omega
      · rw [DOut.toReal_eq_outOfRange]
        constructor
        · intro h; exact absurd h (afterBracket_ne_outOfRange _ _ _ _)
        · rintro ⟨-, hd | hd⟩
          · have hh := hd _ ((hmem _).mp (headD_mem hne default))
            exact absurd hh (not_lt.mpr hr.1)
          · have hh := hd _ ((hmem _).mp (getLastD_mem hne default))
            exact absurd hh (not_lt.mpr hr.2)

theorem C2_witness :
    App.getDValue [(⟨10, 50⟩ : Point)] 30 = .dataShortage ∧
      App.getDValue [⟨10, 20⟩, ⟨1, 80⟩] 90 = .outOfRange :=
  ⟨(C2_sentinels [⟨10, 50⟩] 30).1.mpr (by decide),
    (C2_sentinels [⟨10, 20⟩, ⟨1, 80⟩] 90).2.mpr ⟨by decide, Or.inr (by decide)⟩⟩

/-- C3: if some usable point's passing equals the target exactly,
`getDValue` returns that point's sieve size through the exact-match branch
(no interpolation arithmetic); in particular for points
`{(10,10),(1,60),(0.1,90)}` and target `60` the result is exactly `1`. -/
theorem C3_exact_hit :
    (∀ (pts : List Point) (t : ℚ) (q : Point), q ∈ pts → 0 < q.sieveSize → q.passing = t →
      2 ≤ (App.usable pts).length →
      ∃ r ∈ pts, 0 < r.sieveSize ∧ r.passing = t ∧
        App.getDValueCore pts t = .exactHit r.sieveSize ∧
        App.getDValue pts t = .num (r.sieveSize : ℝ)) ∧
    App.getDValue [⟨10, 10⟩, ⟨1, 60⟩, ⟨mkRat 1 10, 90⟩] 60 = .num 1 := by
  constructor
  · intro pts t q hq hqs hqt hlen
    have hs := App.sortedValid_sorted pts
    have hqv : q ∈ App.sortedValid pts := App.mem_sortedValid.mpr ⟨hq, hqs⟩
    obtain ⟨p1, hp1⟩ := findP1_isSome hqv hqt.le
    have hp1t : p1.passing = t :=
      le_antisymm (findP1_le hp1) (hqt ▸ findP1_max_of_sorted hs hp1 q hqv hqt.le)
    have hcore : App.getDValueCore pts t =
        afterBracket (findP1 (App.sortedValid pts) t) (findP2 (App.sortedValid pts) t) t true :=
      App.getDValueCore_bracket (by omega) ⟨q, hqv, hqt.le⟩ ⟨q, hqv, hqt.ge⟩
    have hab : afterBracket (findP1 (App.sortedValid pts) t) (findP2 (App.sortedValid pts) t) t
        true = .exactHit p1.sieveSize := by
      rw [hp1]
      cases findP2 (App.sortedValid pts) t <;> simp [afterBracket, hp1t]
    obtain ⟨hp1a, hp1b⟩ := App.mem_sortedValid.mp (findP1_mem hp1)
    refine ⟨p1, hp1a, hp1b, hp1t, hcore.trans hab, ?_⟩
    rw [App.getDValue, hcore, hab]
    simp [DOut.toReal]
  · have h : App.getDValueCore [⟨10, 10⟩, ⟨1, 60⟩, ⟨mkRat 1 10, 90⟩] 60 = .exactHit 1 := by decide
    rw [App.getDValue, h]
    simp [DOut.toReal]

theorem C3_witness :
    ∃ r ∈ ([⟨10, 10⟩, ⟨1, 60⟩, ⟨mkRat 1 10, 90⟩] : List Point), 0 < r.sieveSize ∧ r.passing = 60 ∧
      App.getDValueCore [⟨10, 10⟩, ⟨1, 60⟩, ⟨mkRat 1 10, 90⟩] 60 = .exactHit r.sieveSize ∧
      App.getDValue [⟨10, 10⟩, ⟨1, 60⟩, ⟨mkRat 1 10, 90⟩] 60 = .num (r.sieveSize : ℝ) :=
  C3_exact_hit.1 _ 60 ⟨1, 60⟩ (by decide) (by decide) (by decide) (by decide)

/-- C1: on a usable, ascending-by-passing point list, for a target inside
the passing span that no point hits exactly, `getDValue` selects `p1` as
the last point with `passing ≤ target`, `p2` as the first point with
`passing ≥ target`, and returns
`10 ^ (log10 p1.sieveSize + (log10 p2.sieveSize - log10 p1.sieveSize) *
(target - p1.passing) / (p2.passing - p1.passing))`. -/
theorem C1_bracket_interpolation (pts : List Point) (t : ℚ)
    (hsorted : pts.Pairwise lePass) (hpos : ∀ p ∈ pts, 0 < p.sieveSize)
    (hlen : 2 ≤ pts.length)
    (hlo : ∃ p ∈ pts, p.passing ≤ t) (hhi : ∃ p ∈ pts, t ≤ p.passing)
    (hne : ∀ p ∈ pts, p.passing ≠ t) :
    ∃ p1 p2, (pts.filter fun p => decide (p.passing ≤ t)).getLast? = some p1 ∧
      (pts.find? fun p => decide (t ≤ p.passing)) = some p2 ∧
      App.getDValue pts t = .num (interpR p1.sieveSize p2.sieveSize p1.passing p2.passing t) := by
  have hus : App.usable pts = pts :=
    List.filter_eq_self.mpr fun p hp => by simpa using hpos p hp
  have hsv : App.sortedValid pts = pts := by
    rw [App.sortedValid, hus]
    exact List.Sorted.insertionSort_eq hsorted
  obtain ⟨q, hq, hql⟩ := hlo
  obtain ⟨r, hr, hrg⟩ := hhi
  obtain ⟨p1, hp1⟩ := findP1_isSome hq hql
  obtain ⟨p2, hp2⟩ := findP2_isSome hr hrg
  have hp1m : p1 ∈ pts := findP1_mem hp1
  have hp2m : p2 ∈ pts := findP2_mem hp2
  have hp1lt : p1.passing < t := lt_of_le_of_ne (findP1_le hp1) (hne p1 hp1m)
  have hp2gt : t < p2.passing := lt_of_le_of_ne (findP2_ge hp2) fun e => hne p2 hp2m e.symm
  have hlen2 : ¬ (App.usable pts).length < 2 := by
    rw [hus]
    omega
  have hexlo : ∃ p ∈ App.sortedValid pts, p.passing ≤ t := by
    rw [hsv]
    exact ⟨q, hq, hql⟩
  have hexhi : ∃ p ∈ App.sortedValid pts, t ≤ p.passing := by
    rw [hsv]
    exact ⟨r, hr, hrg⟩
  have hcore : App.getDValueCore pts t = afterBracket (findP1 pts t) (findP2 pts t) t true := by
    have := App.getDValueCore_bracket hlen2 hexlo hexhi
    rwa [hsv] at this
  have hab : afterBracket (findP1 pts t) (findP2 pts t) t true =
      .interp p1.sieveSize p2.sieveSize p1.passing p2.passing := by
    rw [hp1, hp2]
    simp only [afterBracket]
    rw [if_neg (by intro e; exact absurd e (hne p1 hp1m)),
      if_neg (by intro e; exact absurd e (hne p2 hp2m)),
      if_neg (by intro e; rw [e] at hp1lt; linarith),
      if_neg (by rintro ⟨-, h | h⟩
                 · exact absurd h (not_le.mpr (hpos p1 hp1m))
                 · exact absurd h (not_le.mpr (hpos p2 hp2m))),
      if_neg (by intro e; linarith)]
  refine ⟨p1, p2, by rw [← findP1_eq]; exact hp1, by rw [← findP2_eq]; exact hp2, ?_⟩
  rw [App.getDValue, hcore, hab]
  simp [DOut.toReal]

theorem C1_witness :
    ∃ p1 p2,
      (([⟨10, 10⟩, ⟨1, 60⟩] : List Point).filter fun p => decide (p.passing ≤ 30)).getLast? =
        some p1 ∧
      (([⟨10, 10⟩, ⟨1, 60⟩] : List Point).find? fun p => decide (30 ≤ p.passing)) = some p2 ∧
      App.getDValue [⟨10, 10⟩, ⟨1, 60⟩] 30 =
        .num (interpR p1.sieveSize p2.sieveSize p1.passing p2.passing 30) :=
  C1_bracket_interpolation [⟨10, 10⟩, ⟨1, 60⟩] 30 (by decide) (by decide) (by decide)
    ⟨⟨10, 10⟩, by decide, by decide⟩ ⟨⟨1, 60⟩, by decide, by decide⟩ (by decide)

/-! ## Equivalence of the two revisions -/

/-- Strict ascending order by passing. -/
def ltPass (a b : Point) : Prop := a.passing < b.passing

instance : IsAntisymm Point ltPass :=
  ⟨fun _ _ h h' => absurd h' (not_lt.mpr (le_of_lt h))⟩

theorem pairwise_ltPass {l : List Point} (hs : l.Pairwise lePass)
    (hd : l.Pairwise fun p q => p.passing ≠ q.passing) : l.Pairwise ltPass :=
  (hs.and hd).imp fun h => lt_of_le_of_ne h.1 h.2

/-- Two sorted-by-passing permutations of a list with pairwise-distinct
passing values are equal. -/
theorem sorted_distinct_unique {l₁ l₂ : List Point} (hp : List.Perm l₁ l₂)
    (hs₁ : l₁.Pairwise lePass) (hs₂ : l₂.Pairwise lePass)
    (hd₁ : l₁.Pairwise fun p q => p.passing ≠ q.passing) : l₁ = l₂ := by
  have hd₂ : l₂.Pairwise fun p q => p.passing ≠ q.passing :=
    (hp.pairwise_iff fun h => Ne.symm h).mp hd₁
  exact List.eq_of_perm_of_sorted hp (pairwise_ltPass hs₁ hd₁) (pairwise_ltPass hs₂ hd₂)

/-- With positive sizes in both brackets, the extra positivity guard of the
`App.tsx` revision never fires, so it is immaterial. -/
theorem afterBracket_posGuard_eq (op1 op2 : Option Point) (t : ℚ)
    (h1 : ∀ q, op1 = some q → 0 < q.sieveSize) (h2 : ∀ q, op2 = some q → 0 < q.sieveSize) :
    afterBracket op1 op2 t true = afterBracket op1 op2 t false := by
  rcases op1 with _ | p1 <;> rcases op2 with _ | p2
  · rfl
  · rfl
  · rfl
  · have g1 := h1 p1 rfl
    have g2 := h2 p2 rfl
    simp only [afterBracket]
    have hg : ¬ (True ∧ (p1.sieveSize ≤ 0 ∨ p2.sieveSize ≤ 0)) := by
      rintro ⟨-, h | h⟩ <;> linarith
    have hg' : ¬ ((false = true) ∧ (p1.sieveSize ≤ 0 ∨ p2.sieveSize ≤ 0)) := by
      rintro ⟨h, -⟩
      simp at h
    rw [if_neg hg, if_neg hg']

/-- C10 (amended): on usable points with pairwise-distinct passing values
the two revisions agree. -/
theorem C10_amended (pts : List Point) (t : ℚ)
    (hpos : ∀ p ∈ pts, 0 < p.sieveSize)
    (hdist : pts.Pairwise fun p q => p.passing ≠ q.passing) :
    App.getDValue pts t = P000.getDValue pts t := by
  have hus : App.usable pts = pts :=
    List.filter_eq_self.mpr fun p hp => by simpa using hpos p hp
  have hpermA : List.Perm (App.sortedValid pts) pts := by
    rw [App.sortedValid, hus]
    exact List.perm_insertionSort _ _
  have hpermP : List.Perm (P000.sortedValid pts) pts :=
    (List.perm_insertionSort _ _).trans (List.perm_insertionSort _ _)
  have hdA : (App.sortedValid pts).Pairwise fun p q => p.passing ≠ q.passing :=
    (hpermA.pairwise_iff fun h => Ne.symm h).mpr hdist
  have hveq : App.sortedValid pts = P000.sortedValid pts :=
    sorted_distinct_unique (hpermA.trans hpermP.symm) (App.sortedValid_sorted pts)
      (P000.p0_sortedValid_sorted pts) hdA
  have hlenA : (App.usable pts).length = pts.length := by rw [hus]
  have hlenP : (P000.sortedValid pts).length = pts.length := hpermP.length_eq
  have hposv : ∀ q ∈ P000.sortedValid pts, 0 < q.sieveSize := fun q hq =>
    hpos q (hpermP.mem_iff.mp hq)
  rw [App.getDValue, P000.getDValue, App.getDValueCore_eq, P000.p0_getDValueCore_eq, hveq, hlenA,
    hlenP]
  congr 1
  by_cases hl2 : pts.length < 2
  · rw [if_pos hl2, if_pos hl2]
  · rw [if_neg hl2, if_neg hl2]
    by_cases hr : t < ((P000.sortedValid pts).headD default).passing ∨
        ((P000.sortedValid pts).getLastD default).passing < t
    · rw [if_pos hr, if_pos hr]
    · rw [if_neg hr, if_neg hr]
      exact afterBracket_posGuard_eq _ _ _ (fun q hq => hposv q (findP1_mem hq))
        fun q hq => hposv q (findP2_mem hq)

theorem C10_amended_witness :
    App.getDValue [⟨2, 40⟩, ⟨1, 80⟩] 60 = P000.getDValue [⟨2, 40⟩, ⟨1, 80⟩] 60 :=
  C10_amended [⟨2, 40⟩, ⟨1, 80⟩] 60 (by decide) (by decide)

/-- C10 counterexample: on a tie in passing the two revisions bracket with
different points (their stable sorts see different pre-orders) and return
different sizes. -/
theorem C10_counterexample :
    App.getDValue [⟨1, 50⟩, ⟨2, 50⟩] 50 = .num 2 ∧
    P000.getDValue [⟨1, 50⟩, ⟨2, 50⟩] 50 = .num 1 ∧
    App.getDValue [⟨1, 50⟩, ⟨2, 50⟩] 50 ≠ P000.getDValue [⟨1, 50⟩, ⟨2, 50⟩] 50 := by
  have hA : App.getDValueCore [⟨1, 50⟩, ⟨2, 50⟩] 50 = .exactHit 2 := by decide
  have hP : P000.getDValueCore [⟨1, 50⟩, ⟨2, 50⟩] 50 = .exactHit 1 := by decide
  refine ⟨?_, ?_, ?_⟩
  · rw [App.getDValue, hA]
    simp [DOut.toReal]
  · rw [P000.getDValue, hP]
    simp [DOut.toReal]
  · rw [App.getDValue, hA, P000.getDValue, hP]
    simp only [DOut.toReal, ne_eq, DValue.num.injEq]
    norm_num

/-! ## Bounds on numeric results (towards monotonicity) -/

theorem App.mem_usable {pts : List Point} {p : Point} :
    p ∈ App.usable pts ↔ p ∈ pts ∧ 0 < p.sieveSize := by
  rw [App.usable, List.mem_filter]
  simp

theorem find?_congr_mem {α : Type _} {p q : α → Bool} :
    ∀ {l : List α}, (∀ x ∈ l, p x = q x) → l.find? p = l.find? q
  | [], _ => rfl
  | a :: l, h => by
    rw [List.forall_mem_cons] at h
    by_cases pa : p a
    · rw [List.find?_cons_of_pos _ pa, List.find?_cons_of_pos _ (h.1 ▸ pa)]
    · rw [List.find?_cons_of_neg _ pa, List.find?_cons_of_neg _ (h.1 ▸ pa),
        find?_congr_mem h.2]

/-- When the brackets straddle the target strictly and carry positive
sizes, the tail lands in the interpolation branch. -/
theorem afterBracket_eval_interp {p1 p2 : Point} {u : ℚ} {g : Bool}
    (h1 : p1.passing < u) (h2 : u < p2.passing)
    (hp1 : 0 < p1.sieveSize) (hp2 : 0 < p2.sieveSize) :
    afterBracket (some p1) (some p2) u g =
      .interp p1.sieveSize p2.sieveSize p1.passing p2.passing := by
  simp only [afterBracket]
  rw [if_neg (by intro e; linarith), if_neg (by intro e; linarith),
    if_neg (by intro e; rw [e] at h1; linarith),
    if_neg (by rintro ⟨-, h | h⟩ <;> linarith),
    if_neg (by intro e; linarith)]

/-- A numeric result never exceeds the sieve size of the upper bracket. -/
theorem bracket_num_le_p2 {v : List Point} {t : ℚ} {g : Bool} {x : ℝ} {p2 : Point}
    (hposv : ∀ p ∈ v, 0 < p.sieveSize)
    (hm : ∀ p q, p ∈ v → q ∈ v → p.passing ≤ q.passing → p.sieveSize ≤ q.sieveSize)
    (h2 : findP2 v t = some p2)
    (hx : (afterBracket (findP1 v t) (findP2 v t) t g).toReal t = .num x) :
    x ≤ (p2.sieveSize : ℝ) := by
  obtain ⟨p1, _, h1, -⟩ := afterBracket_num_some hx
  have hm1 : p1 ∈ v := findP1_mem h1
  have hm2 : p2 ∈ v := findP2_mem h2
  have hle1 : p1.passing ≤ t := findP1_le h1
  have hle2 : t ≤ p2.passing := findP2_ge h2
  rw [h1, h2] at hx
  simp only [afterBracket] at hx
  split_ifs at hx with hA hB hC hD hE
  · simp only [DOut.toReal, DValue.num.injEq] at hx
    rw [← hx]
    have hss : p1.sieveSize ≤ p2.sieveSize :=
      hm p1 p2 hm1 hm2 (by linarith [hA.le, hle2])
    exact_mod_cast hss
  · simp only [DOut.toReal, DValue.num.injEq] at hx
    rw [← hx]
  · simp [DOut.toReal] at hx
  · simp [DOut.toReal] at hx
  · exact absurd (le_antisymm hle1 (hE ▸ hle2)) hA
  · simp only [DOut.toReal, DValue.num.injEq] at hx
    rw [← hx]
    have ha1 : p1.passing < t := lt_of_le_of_ne hle1 hA
    have ha2 : t < p2.passing := lt_of_le_of_ne hle2 fun e => hB e.symm
    exact (interpR_bounds (hposv p1 hm1) (hposv p2 hm2)
      (hm p1 p2 hm1 hm2 (by linarith)) (by linarith) ha1.le ha2.le).2

/-- A numeric result is at least the sieve size of the lower bracket. -/
theorem bracket_num_ge_p1 {v : List Point} {t : ℚ} {g : Bool} {x : ℝ} {p1 : Point}
    (hposv : ∀ p ∈ v, 0 < p.sieveSize)
    (hm : ∀ p q, p ∈ v → q ∈ v → p.passing ≤ q.passing → p.sieveSize ≤ q.sieveSize)
    (h1 : findP1 v t = some p1)
    (hx : (afterBracket (findP1 v t) (findP2 v t) t g).toReal t = .num x) :
    (p1.sieveSize : ℝ) ≤ x := by
  obtain ⟨_, p2, -, h2⟩ := afterBracket_num_some hx
  have hm1 : p1 ∈ v := findP1_mem h1
  have hm2 : p2 ∈ v := findP2_mem h2
  have hle1 : p1.passing ≤ t := findP1_le h1
  have hle2 : t ≤ p2.passing := findP2_ge h2
  rw [h1, h2] at hx
  simp only [afterBracket] at hx
  split_ifs at hx with hA hB hC hD hE
  · simp only [DOut.toReal, DValue.num.injEq] at hx
    rw [← hx]
  · simp only [DOut.toReal, DValue.num.injEq] at hx
    rw [← hx]
    have hss : p1.sieveSize ≤ p2.sieveSize :=
      hm p1 p2 hm1 hm2 (by linarith [hle1, hB.ge])
    exact_mod_cast hss
  · simp [DOut.toReal] at hx
  · simp [DOut.toReal] at hx
  · exact absurd (le_antisymm hle1 (hE ▸ hle2)) hA
  · simp only [DOut.toReal, DValue.num.injEq] at hx
    rw [← hx]
    have ha1 : p1.passing < t := lt_of_le_of_ne hle1 hA
    have ha2 : t < p2.passing := lt_of_le_of_ne hle2 fun e => hB e.symm
    exact (interpR_bounds (hposv p1 hm1) (hposv p2 hm2)
      (hm p1 p2 hm1 hm2 (by linarith)) (by linarith) ha1.le ha2.le).1

/-- C4 counterexample: physically inverted (but in-range) data gives three
numeric D-values with `D10 > D30 > D60`; validation would only warn, never
error, so the case is computed. -/
theorem C4_counterexample :
    App.getDValue [⟨5, 10⟩, ⟨1, 30⟩, ⟨mkRat 1 5, 60⟩] 10 = .num 5 ∧
    App.getDValue [⟨5, 10⟩, ⟨1, 30⟩, ⟨mkRat 1 5, 60⟩] 30 = .num 1 ∧
    App.getDValue [⟨5, 10⟩, ⟨1, 30⟩, ⟨mkRat 1 5, 60⟩] 60 = .num ((mkRat 1 5 : ℚ) : ℝ) ∧
    ¬ ((5 : ℝ) ≤ 1) := by
  have h10 : App.getDValueCore [⟨5, 10⟩, ⟨1, 30⟩, ⟨mkRat 1 5, 60⟩] 10 = .exactHit 5 := by decide
  have h30 : App.getDValueCore [⟨5, 10⟩, ⟨1, 30⟩, ⟨mkRat 1 5, 60⟩] 30 = .exactHit 1 := by decide
  have h60 : App.getDValueCore [⟨5, 10⟩, ⟨1, 30⟩, ⟨mkRat 1 5, 60⟩] 60 =
      .exactHit (mkRat 1 5) := by decide
  refine ⟨?_, ?_, ?_, by norm_num⟩
  · rw [App.getDValue, h10]
    simp [DOut.toReal]
  · rw [App.getDValue, h30]
    simp [DOut.toReal]
  · rw [App.getDValue, h60]
    rfl

/-- C4 (amended): for a fixed list of points whose usable part is
physically consistent — a higher (or equal) passing percentage never comes
with a smaller sieve size — the numeric result of `getDValue` is
monotonically non-decreasing in the target percentile; in particular
`D10 ≤ D30 ≤ D60` whenever all three are numeric.  (The unamended claim
fails on physically inverted data, which validation only warns about.) -/
theorem C4_amended (pts : List Point) (t t' : ℚ) (x y : ℝ)
    (hm : ∀ p ∈ App.usable pts, ∀ q ∈ App.usable pts,
      p.passing ≤ q.passing → p.sieveSize ≤ q.sieveSize)
    (htt : t ≤ t')
    (hx : App.getDValue pts t = .num x) (hy : App.getDValue pts t' = .num y) :
    x ≤ y := by
  rcases eq_or_lt_of_le htt with rfl | hlt
  · have e := hx.symm.trans hy
    injection e with e
    exact le_of_eq e
  · have hs := App.sortedValid_sorted pts
    have hposv : ∀ p ∈ App.sortedValid pts, 0 < p.sieveSize := fun p hp =>
      App.sortedValid_pos hp
    have husable : ∀ p ∈ App.sortedValid pts, p ∈ App.usable pts := fun p hp =>
      App.mem_usable.mpr (App.mem_sortedValid.mp hp)
    have hmv : ∀ p q, p ∈ App.sortedValid pts → q ∈ App.sortedValid pts →
        p.passing ≤ q.passing → p.sieveSize ≤ q.sieveSize := fun p q hp hq =>
      hm p (husable p hp) q (husable q hq)
    have hx' := App.getDValue_num_elim hx
    have hy' := App.getDValue_num_elim hy
    obtain ⟨p1, p2, h1, h2⟩ := afterBracket_num_some hx'
    obtain ⟨q1, q2, k1, k2⟩ := afterBracket_num_some hy'
    by_cases hc : p2.passing ≤ t'
    · have hx2 : x ≤ (p2.sieveSize : ℝ) := bracket_num_le_p2 hposv hmv h2 hx'
      have hy1 : (q1.sieveSize : ℝ) ≤ y := bracket_num_ge_p1 hposv hmv k1 hy'
      have hpq : p2.passing ≤ q1.passing :=
        findP1_max_of_sorted hs k1 p2 (findP2_mem h2) hc
      have hsq : p2.sieveSize ≤ q1.sieveSize :=
        hmv p2 q1 (findP2_mem h2) (findP1_mem k1) hpq
      have hsqR : (p2.sieveSize : ℝ) ≤ (q1.sieveSize : ℝ) := by exact_mod_cast hsq
      linarith
    · push_neg at hc
      have hm1 : p1 ∈ App.sortedValid pts := findP1_mem h1
      have hm2 : p2 ∈ App.sortedValid pts := findP2_mem h2
      have hp1ne : p1.passing ≠ t := by
        intro e
        have := findP2_min_of_sorted hs h2 p1 hm1 e.ge
        linarith
      have hp1lt : p1.passing < t := lt_of_le_of_ne (findP1_le h1) hp1ne
      have hp2gt : t < p2.passing := by linarith [findP2_ge h2]
      have hfil : ∀ p ∈ App.sortedValid pts,
          (decide (p.passing ≤ t')) = (decide (p.passing ≤ t)) := by
        intro p hp
        by_cases hpt : p.passing ≤ t
        · simp [hpt, le_trans hpt hlt.le]
        · have hgt : t < p.passing := not_le.mp hpt
          have hmin : p2.passing ≤ p.passing := findP2_min_of_sorted hs h2 p hp hgt.le
          have hnt' : ¬ p.passing ≤ t' := not_le.mpr (by linarith)
          simp [hpt, hnt']
      have hfind : ∀ p ∈ App.sortedValid pts,
          (decide (t' ≤ p.passing)) = (decide (t ≤ p.passing)) := by
        intro p hp
        by_cases hpt : t ≤ p.passing
        · have hmin : p2.passing ≤ p.passing := findP2_min_of_sorted hs h2 p hp hpt
          have ht' : t' ≤ p.passing := by linarith
          simp [hpt, ht']
        · have hnt' : ¬ t' ≤ p.passing := fun hcon => hpt (le_trans hlt.le hcon)
          simp [hpt, hnt']
      have e1 : findP1 (App.sortedValid pts) t' = some p1 := by
        rw [findP1_eq, List.filter_congr hfil, ← findP1_eq]
        exact h1
      have e2 : findP2 (App.sortedValid pts) t' = some p2 := by
        rw [findP2_eq, find?_congr_mem hfind, ← findP2_eq]
        exact h2
      have hpos1 := hposv p1 hm1
      have hpos2 := hposv p2 hm2
      rw [h1, h2, afterBracket_eval_interp hp1lt hp2gt hpos1 hpos2] at hx'
      rw [e1, e2, afterBracket_eval_interp (by linarith) hc hpos1 hpos2] at hy'
      simp only [DOut.toReal, DValue.num.injEq] at hx' hy'
      rw [← hx', ← hy']
      exact interpR_mono hpos1 hpos2 (hmv p1 p2 hm1 hm2 (by linarith)) (by linarith) hlt.le

theorem C4_witness :
    App.getDValue [⟨1, 10⟩, ⟨5, 90⟩] 30 = .num (interpR 1 5 10 90 30) ∧
    App.getDValue [⟨1, 10⟩, ⟨5, 90⟩] 60 = .num (interpR 1 5 10 90 60) ∧
    interpR 1 5 10 90 30 ≤ interpR 1 5 10 90 60 := by
  have h30 : App.getDValueCore [⟨1, 10⟩, ⟨5, 90⟩] 30 = .interp 1 5 10 90 := by decide
  have h60 : App.getDValueCore [⟨1, 10⟩, ⟨5, 90⟩] 60 = .interp 1 5 10 90 := by decide
  have e30 : App.getDValue [⟨1, 10⟩, ⟨5, 90⟩] 30 = .num (interpR 1 5 10 90 30) := by
    rw [App.getDValue, h30]
    simp [DOut.toReal]
  have e60 : App.getDValue [⟨1, 10⟩, ⟨5, 90⟩] 60 = .num (interpR 1 5 10 90 60) := by
    rw [App.getDValue, h60]
    simp [DOut.toReal]
  exact ⟨e30, e60, C4_amended [⟨1, 10⟩, ⟨5, 90⟩] 30 60 _ _ (by decide) (by norm_num) e30 e60⟩

/-! ## Validator and gating claims -/

/-- C8: a validation Error anywhere suppresses recomputation of all case
results (the stored results are returned untouched), while a batch with no
Errors — warnings included — recomputes every case; in both revisions. -/
theorem C8_error_gate (n : ℕ) (data : List GridRow) (prev : List CaseResult) :
    (hasError (App.validateData n data) = true → App.handleCalculate n data prev = prev) ∧
    (hasError (App.validateData n data) = false →
      App.handleCalculate n data prev =
        (List.range n).map fun c => App.computeCase (App.casePoints data c)) ∧
    (hasError (P000.validateData n data) = true → P000.handleCalculate n data prev = prev) ∧
    (hasError (P000.validateData n data) = false →
      P000.handleCalculate n data prev =
        (List.range n).map fun c => P000.computeCase (P000.casePoints data c)) ∧
    (∀ msgs : List Msg, hasError msgs = false ↔ ∀ m ∈ msgs, m.isError = false) := by
  refine ⟨fun h => ?_, fun h => ?_, fun h => ?_, fun h => ?_, fun msgs => ?_⟩
  · rw [App.handleCalculate, if_pos h]
  · rw [App.handleCalculate, if_neg (by rw [h]; simp)]
  · rw [P000.handleCalculate, if_pos h]
  · rw [P000.handleCalculate, if_neg (by rw [h]; simp)]
  · simp [hasError]

theorem C8_witness :
    hasError (App.validateData 1 [⟨53, [.num 150]⟩]) = true ∧
    App.handleCalculate 1 [⟨53, [.num 150]⟩] [] = [] ∧
    hasError (App.validateData 1 [⟨53, [.num 80]⟩, ⟨19, [.num 90]⟩]) = false ∧
    App.handleCalculate 1 [⟨53, [.num 80]⟩, ⟨19, [.num 90]⟩] [] =
      (List.range 1).map fun c =>
        App.computeCase (App.casePoints [⟨53, [.num 80]⟩, ⟨19, [.num 90]⟩] c) :=
  ⟨by decide, (C8_error_gate 1 [⟨53, [.num 150]⟩] []).1 (by decide), by decide,
    (C8_error_gate 1 [⟨53, [.num 80]⟩, ⟨19, [.num 90]⟩] []).2.1 (by decide)⟩

/-- C7 counterexample: on a non-blank, non-numeric cell, the `part_000`
validator emits an Error message instead of silently skipping it (the
`App.tsx` validator does skip it); blank and non-numeric strings are thus
not treated identically by that revision. -/
theorem C7_counterexample :
    P000.validateData 1 [⟨53, [Cell.junk]⟩] = [⟨0, 0, true⟩] ∧
    App.validateData 1 [⟨53, [Cell.junk]⟩] = [] ∧
    P000.validateData 1 [⟨53, [Cell.blank]⟩] = [] :=
  ⟨by decide, by decide, by decide⟩

/-- C7 (amended): the `App.tsx` validator silently skips blank and
unparseable cells identically (no message, `lastValid` untouched), because
`toNumberOrNull` maps all of them to `null`; the `part_000` validator
skips only blank cells, and flags a non-blank unparseable cell (NaN under
`parseFloat`) as an Error, leaving `lastValid` untouched. -/
theorem C7_amended :
    (∀ data c st row, App.toNumberOrNull (getCell row c) = none →
      App.step data c st row = st) ∧
    (App.toNumberOrNull .blank = none ∧ App.toNumberOrNull .junk = none ∧
      ∀ q, App.toNumberOrNull (.mixed q) = none) ∧
    (∀ data c st row, getCell row c = .blank → P000.step data c st row = st) ∧
    (∀ data c st row, getCell row c = .junk →
      P000.step data c st row =
        (st.1, st.2 ++ [⟨data.findIdx fun d => decide (d.sieveSize = row.sieveSize), c,
          true⟩])) := by
  refine ⟨fun data c st row h => ?_, ⟨rfl, rfl, fun q => rfl⟩,
    fun data c st row h => ?_, fun data c st row h => ?_⟩
  · simp only [App.step, h]
  · simp only [P000.step, h]
  · simp only [P000.step, h, P000.parseFloatCell]

theorem C7_witness :
    App.step [] 0 (some 80, []) ⟨53, [Cell.junk]⟩ = (some 80, []) ∧
    P000.step [] 0 (some 80, []) ⟨53, [Cell.blank]⟩ = (some 80, []) ∧
    P000.step [] 0 (some 80, []) ⟨53, [Cell.junk]⟩ = (some 80, [⟨0, 0, true⟩]) := by
  refine ⟨C7_amended.1 [] 0 (some 80, []) ⟨53, [Cell.junk]⟩ rfl,
    C7_amended.2.2.1 [] 0 (some 80, []) ⟨53, [Cell.blank]⟩ rfl, ?_⟩
  have h := C7_amended.2.2.2 [] 0 (some 80, []) ⟨53, [Cell.junk]⟩ rfl
  simpa using h

/-- C6: in the descending-size scan an out-of-range value produces an
Error and leaves `lastValid` unchanged; a parseable in-range value
strictly above the defined `lastValid` produces exactly one Warning and
does update `lastValid` (so one upward jump is flagged once and does not
cascade); and on the series `[(53,100),(19,80),(4.75,80),(0.425,85)]` the
validator emits exactly one Warning, attached to the row with sieve size
`0.425`, and no Error. -/
theorem C6_monotonicity_detection :
    (∀ data c (st : Option ℚ × List Msg) row v,
      App.toNumberOrNull (getCell row c) = some v → v < 0 ∨ 100 < v →
      App.step data c st row =
        (st.1, st.2 ++ [⟨data.findIdx fun d => decide (d.sieveSize = row.sieveSize), c,
          true⟩])) ∧
    (∀ data c (msgs : List Msg) l row v,
      App.toNumberOrNull (getCell row c) = some v → 0 ≤ v → v ≤ 100 → l < v →
      App.step data c (some l, msgs) row =
        (some v, msgs ++ [⟨data.findIdx fun d => decide (d.sieveSize = row.sieveSize), c,
          false⟩])) ∧
    App.validateData 1
      [⟨53, [.num 100]⟩, ⟨19, [.num 80]⟩, ⟨mkRat 19 4, [.num 80]⟩, ⟨mkRat 17 40, [.num 85]⟩] =
      [⟨3, 0, false⟩] ∧
    (([⟨53, [.num 100]⟩, ⟨19, [.num 80]⟩, ⟨mkRat 19 4, [.num 80]⟩,
        ⟨mkRat 17 40, [.num 85]⟩] : List GridRow).getD 3 default).sieveSize = mkRat 17 40 := by
  refine ⟨fun data c st row v h hv => ?_, fun data c msgs l row v h h0 h100 hl => ?_,
    by decide, by decide⟩
  · simp only [App.step, h]
    rw [if_pos hv]
  · simp only [App.step, h]
    rw [if_neg (by push_neg; exact ⟨h0, h100⟩), if_pos hl]

theorem C6_witness :
    App.step [⟨53, [.num 150]⟩] 0 (some 80, []) ⟨53, [.num 150]⟩ =
      (some 80, [⟨0, 0, true⟩]) ∧
    App.step [⟨1, [.num 85]⟩] 0 (some 80, []) ⟨1, [.num 85]⟩ = (some 85, [⟨0, 0, false⟩]) := by
  constructor
  · have h := C6_monotonicity_detection.1 [⟨53, [.num 150]⟩] 0 (some 80, []) ⟨53, [.num 150]⟩
      150 rfl (by norm_num)
    simpa using h
  · have h := C6_monotonicity_detection.2.1 [⟨1, [.num 85]⟩] 0 [] 80 ⟨1, [.num 85]⟩ 85 rfl
      (by norm_num) (by norm_num) (by norm_num)
    simpa using h

/-! ## Aggregator field lemmas -/

theorem App.computeCase_short {pts : List Point} (h : pts.length < 2) :
    App.computeCase pts = ⟨.na, .na, .na, .na, .na⟩ := by
  simp only [App.computeCase]
  rw [if_pos h]

theorem App.computeCase_D10 {pts : List Point} (h : ¬ pts.length < 2) :
    (App.computeCase pts).D10 = App.getDValue pts 10 := by
  simp only [App.computeCase]
  rw [if_neg h]

theorem App.computeCase_D30 {pts : List Point} (h : ¬ pts.length < 2) :
    (App.computeCase pts).D30 = App.getDValue pts 30 := by
  simp only [App.computeCase]
  rw [if_neg h]

theorem App.computeCase_D60 {pts : List Point} (h : ¬ pts.length < 2) :
    (App.computeCase pts).D60 = App.getDValue pts 60 := by
  simp only [App.computeCase]
  rw [if_neg h]

theorem App.computeCase_Cu {pts : List Point} (h : ¬ pts.length < 2) :
    (App.computeCase pts).Cu =
      (App.deriveCuCc (App.getDValue pts 10) (App.getDValue pts 30)
        (App.getDValue pts 60)).1 := by
  simp only [App.computeCase]
  rw [if_neg h]

theorem App.computeCase_Cc {pts : List Point} (h : ¬ pts.length < 2) :
    (App.computeCase pts).Cc =
      (App.deriveCuCc (App.getDValue pts 10) (App.getDValue pts 30)
        (App.getDValue pts 60)).2 := by
  simp only [App.computeCase]
  rw [if_neg h]

theorem P000.p0_computeCase_short {pts : List Point} (h : pts.length < 2) :
    P000.computeCase pts = ⟨.na, .na, .na, .na, .na⟩ := by
  simp only [P000.computeCase]
  rw [if_pos h]

theorem P000.p0_computeCase_D10 {pts : List Point} (h : ¬ pts.length < 2) :
    (P000.computeCase pts).D10 = P000.getDValue pts 10 := by
  simp only [P000.computeCase]
  rw [if_neg h]

theorem P000.p0_computeCase_D30 {pts : List Point} (h : ¬ pts.length < 2) :
    (P000.computeCase pts).D30 = P000.getDValue pts 30 := by
  simp only [P000.computeCase]
  rw [if_neg h]

theorem P000.p0_computeCase_D60 {pts : List Point} (h : ¬ pts.length < 2) :
    (P000.computeCase pts).D60 = P000.getDValue pts 60 := by
  simp only [P000.computeCase]
  rw [if_neg h]

theorem P000.p0_computeCase_Cu {pts : List Point} (h : ¬ pts.length < 2) :
    (P000.computeCase pts).Cu =
      (P000.deriveCuCc (P000.getDValue pts 10) (P000.getDValue pts 30)
        (P000.getDValue pts 60)).1 := by
  simp only [P000.computeCase]
  rw [if_neg h]

theorem P000.p0_computeCase_Cc {pts : List Point} (h : ¬ pts.length < 2) :
    (P000.computeCase pts).Cc =
      (P000.deriveCuCc (P000.getDValue pts 10) (P000.getDValue pts 30)
        (P000.getDValue pts 60)).2 := by
  simp only [P000.computeCase]
  rw [if_neg h]

theorem App.casePoints_pos (data : List GridRow) (c : ℕ) :
    ∀ p ∈ App.casePoints data c, 0 < p.sieveSize := by
  intro p hp
  rw [App.casePoints, List.mem_filterMap] at hp
  obtain ⟨r, hr, he⟩ := hp
  rcases h : App.toNumberOrNull (getCell r c) with _ | v
  · simp [h] at he
  · by_cases hs : 0 < r.sieveSize
    · simp [h, hs] at he
      cases he
      exact hs
    · simp [h, hs] at he

theorem P000.p0_casePoints_pos (data : List GridRow) (c : ℕ) :
    ∀ p ∈ P000.casePoints data c, 0 < p.sieveSize := by
  intro p hp
  rw [P000.casePoints, List.mem_filterMap] at hp
  obtain ⟨r, hr, he⟩ := hp
  rcases h : P000.parseFloatCell (getCell r c) with _ | v
  · simp [h] at he
  · by_cases hs : 0 < r.sieveSize
    · simp [h, hs] at he
      cases he
      exact hs
    · simp [h, hs] at he

theorem App.deriveCuCc_cu {d10 d60 : ℝ} (D30 : DValue) (h10 : 0 < d10) (h60 : 0 < d60) :
    (App.deriveCuCc (.num d10) D30 (.num d60)).1 = .num (d60 / d10) := by
  simp only [App.deriveCuCc]
  rw [if_pos ⟨h10, h60⟩]

theorem App.deriveCuCc_cc {d10 d30 d60 : ℝ} (h10 : 0 < d10) (h30 : 0 < d30) (h60 : 0 < d60) :
    (App.deriveCuCc (.num d10) (.num d30) (.num d60)).2 = .num (d30 * d30 / (d10 * d60)) := by
  simp only [App.deriveCuCc]
  rw [if_pos ⟨h10, h60⟩]
  simp only [if_pos h30]

theorem P000.p0_deriveCuCc_cu {d10 d60 : ℝ} (D30 : DValue) (h10 : 0 < d10) :
    (P000.deriveCuCc (.num d10) D30 (.num d60)).1 = .num (d60 / d10) := by
  simp only [P000.deriveCuCc]
  rw [if_pos h10]

theorem P000.p0_deriveCuCc_cc {d10 d30 d60 : ℝ} (h10 : 0 < d10) :
    (P000.deriveCuCc (.num d10) (.num d30) (.num d60)).2 = .num (d30 * d30 / (d10 * d60)) := by
  simp only [P000.deriveCuCc]
  rw [if_pos h10]

/-- C5: in a case result, `Cu = D60 / D10` exactly when `D10` and `D60`
are numeric and `D10 > 0` (numeric D-values are automatically positive),
`NotApplicable` otherwise; `Cc = D30² / (D10·D60)` exactly when all three
are numeric and `D10 > 0` and `D60 > 0`, `NotApplicable` otherwise — in
both revisions, for the per-case records built by `handleCalculate`. -/
theorem C5_cu_cc :
    (∀ (data : List GridRow) (c : ℕ) (d10 d60 : ℝ),
      (App.computeCase (App.casePoints data c)).D10 = .num d10 →
      (App.computeCase (App.casePoints data c)).D60 = .num d60 → 0 < d10 →
      (App.computeCase (App.casePoints data c)).Cu = .num (d60 / d10)) ∧
    (∀ (data : List GridRow) (c : ℕ),
      (¬ ∃ d10 d60 : ℝ, (App.computeCase (App.casePoints data c)).D10 = .num d10 ∧
        (App.computeCase (App.casePoints data c)).D60 = .num d60 ∧ 0 < d10) →
      (App.computeCase (App.casePoints data c)).Cu = .na) ∧
    (∀ (data : List GridRow) (c : ℕ) (d10 d30 d60 : ℝ),
      (App.computeCase (App.casePoints data c)).D10 = .num d10 →
      (App.computeCase (App.casePoints data c)).D30 = .num d30 →
      (App.computeCase (App.casePoints data c)).D60 = .num d60 → 0 < d10 → 0 < d60 →
      (App.computeCase (App.casePoints data c)).Cc = .num (d30 * d30 / (d10 * d60))) ∧
    (∀ (data : List GridRow) (c : ℕ),
      (¬ ∃ d10 d30 d60 : ℝ, (App.computeCase (App.casePoints data c)).D10 = .num d10 ∧
        (App.computeCase (App.casePoints data c)).D30 = .num d30 ∧
        (App.computeCase (App.casePoints data c)).D60 = .num d60 ∧ 0 < d10 ∧ 0 < d60) →
      (App.computeCase (App.casePoints data c)).Cc = .na) ∧
    (∀ (data : List GridRow) (c : ℕ) (d10 d60 : ℝ),
      (P000.computeCase (P000.casePoints data c)).D10 = .num d10 →
      (P000.computeCase (P000.casePoints data c)).D60 = .num d60 → 0 < d10 →
      (P000.computeCase (P000.casePoints data c)).Cu = .num (d60 / d10)) ∧
    (∀ (data : List GridRow) (c : ℕ),
      (¬ ∃ d10 d60 : ℝ, (P000.computeCase (P000.casePoints data c)).D10 = .num d10 ∧
        (P000.computeCase (P000.casePoints data c)).D60 = .num d60 ∧ 0 < d10) →
      (P000.computeCase (P000.casePoints data c)).Cu = .na) ∧
    (∀ (data : List GridRow) (c : ℕ) (d10 d30 d60 : ℝ),
      (P000.computeCase (P000.casePoints data c)).D10 = .num d10 →
      (P000.computeCase (P000.casePoints data c)).D30 = .num d30 →
      (P000.computeCase (P000.casePoints data c)).D60 = .num d60 → 0 < d10 → 0 < d60 →
      (P000.computeCase (P000.casePoints data c)).Cc = .num (d30 * d30 / (d10 * d60))) ∧
    (∀ (data : List GridRow) (c : ℕ),
      (¬ ∃ d10 d30 d60 : ℝ, (P000.computeCase (P000.casePoints data c)).D10 = .num d10 ∧
        (P000.computeCase (P000.casePoints data c)).D30 = .num d30 ∧
        (P000.computeCase (P000.casePoints data c)).D60 = .num d60 ∧ 0 < d10 ∧ 0 < d60) →
      (P000.computeCase (P000.casePoints data c)).Cc = .na) := by
  refine ⟨?_, ?_, ?_, ?_, ?_, ?_, ?_, ?_⟩
  · intro data c d10 d60 h10 h60 hp10
    by_cases hl : (App.casePoints data c).length < 2
    · rw [App.computeCase_short hl] at h10
      simp at h10
    · rw [App.computeCase_D10 hl] at h10
      rw [App.computeCase_D60 hl] at h60
      rw [App.computeCase_Cu hl, h10, h60]
      exact App.deriveCuCc_cu _ hp10 (App.getDValue_pos h60)
  · intro data c hne
    by_cases hl : (App.casePoints data c).length < 2
    · rw [App.computeCase_short hl]
    · rw [App.computeCase_Cu hl]
      rcases e10 : App.getDValue (App.casePoints data c) 10 with _ | _ | _ | _ | d10 <;>
        rcases e60 : App.getDValue (App.casePoints data c) 60 with _ | _ | _ | _ | d60 <;>
          try simp [App.deriveCuCc]
      exact absurd ⟨d10, d60, by rw [App.computeCase_D10 hl, e10],
        by rw [App.computeCase_D60 hl, e60], App.getDValue_pos e10⟩ hne
  · intro data c d10 d30 d60 h10 h30 h60 hp10 hp60
    by_cases hl : (App.casePoints data c).length < 2
    · rw [App.computeCase_short hl] at h10
      simp at h10
    · rw [App.computeCase_D10 hl] at h10
      rw [App.computeCase_D30 hl] at h30
      rw [App.computeCase_D60 hl] at h60
      rw [App.computeCase_Cc hl, h10, h30, h60]
      exact App.deriveCuCc_cc hp10 (App.getDValue_pos h30) hp60
  · intro data c hne
    by_cases hl : (App.casePoints data c).length < 2
    · rw [App.computeCase_short hl]
    · rw [App.computeCase_Cc hl]
      rcases e10 : App.getDValue (App.casePoints data c) 10 with _ | _ | _ | _ | d10 <;>
        rcases e60 : App.getDValue (App.casePoints data c) 60 with _ | _ | _ | _ | d60 <;>
          try simp [App.deriveCuCc]
      rcases e30 : App.getDValue (App.casePoints data c) 30 with _ | _ | _ | _ | d30 <;>
        simp [App.deriveCuCc, App.getDValue_pos e10, App.getDValue_pos e60]
      exact absurd ⟨d10, d30, d60, by rw [App.computeCase_D10 hl, e10],
        by rw [App.computeCase_D30 hl, e30], by rw [App.computeCase_D60 hl, e60],
        App.getDValue_pos e10, App.getDValue_pos e60⟩ hne
  · intro data c d10 d60 h10 h60 hp10
    by_cases hl : (P000.casePoints data c).length < 2
    · rw [P000.p0_computeCase_short hl] at h10
      simp at h10
    · rw [P000.p0_computeCase_D10 hl] at h10
      rw [P000.p0_computeCase_D60 hl] at h60
      rw [P000.p0_computeCase_Cu hl, h10, h60]
      exact P000.p0_deriveCuCc_cu _ hp10
  · intro data c hne
    by_cases hl : (P000.casePoints data c).length < 2
    · rw [P000.p0_computeCase_short hl]
    · rw [P000.p0_computeCase_Cu hl]
      rcases e10 : P000.getDValue (P000.casePoints data c) 10 with _ | _ | _ | _ | d10 <;>
        rcases e60 : P000.getDValue (P000.casePoints data c) 60 with _ | _ | _ | _ | d60 <;>
          try simp [P000.deriveCuCc]
      exact absurd ⟨d10, d60, by rw [P000.p0_computeCase_D10 hl, e10],
        by rw [P000.p0_computeCase_D60 hl, e60],
        P000.p0_getDValue_pos (P000.p0_casePoints_pos data c) e10⟩ hne
  · intro data c d10 d30 d60 h10 h30 h60 hp10 hp60
    by_cases hl : (P000.casePoints data c).length < 2
    · rw [P000.p0_computeCase_short hl] at h10
      simp at h10
    · rw [P000.p0_computeCase_D10 hl] at h10
      rw [P000.p0_computeCase_D30 hl] at h30
      rw [P000.p0_computeCase_D60 hl] at h60
      rw [P000.p0_computeCase_Cc hl, h10, h30, h60]
      exact P000.p0_deriveCuCc_cc hp10
  · intro data c hne
    by_cases hl : (P000.casePoints data c).length < 2
    · rw [P000.p0_computeCase_short hl]
    · rw [P000.p0_computeCase_Cc hl]
      rcases e10 : P000.getDValue (P000.casePoints data c) 10 with _ | _ | _ | _ | d10 <;>
        rcases e60 : P000.getDValue (P000.casePoints data c) 60 with _ | _ | _ | _ | d60 <;>
          try simp [P000.deriveCuCc]
      rcases e30 : P000.getDValue (P000.casePoints data c) 30 with _ | _ | _ | _ | d30 <;>
        simp [P000.deriveCuCc, P000.p0_getDValue_pos (P000.p0_casePoints_pos data c) e10]
      exact absurd ⟨d10, d30, d60, by rw [P000.p0_computeCase_D10 hl, e10],
        by rw [P000.p0_computeCase_D30 hl, e30], by rw [P000.p0_computeCase_D60 hl, e60],
        P000.p0_getDValue_pos (P000.p0_casePoints_pos data c) e10,
        P000.p0_getDValue_pos (P000.p0_casePoints_pos data c) e60⟩ hne

theorem C5_witness :
    (App.computeCase (App.casePoints [⟨5, [.num 10]⟩, ⟨2, [.num 30]⟩, ⟨1, [.num 60]⟩] 0)).Cu =
      .num ((1 : ℝ) / 5) ∧
    (App.computeCase (App.casePoints [⟨5, [.num 10]⟩, ⟨2, [.num 30]⟩, ⟨1, [.num 60]⟩] 0)).Cc =
      .num ((2 : ℝ) * 2 / (5 * 1)) := by
  have hpts : App.casePoints [⟨5, [.num 10]⟩, ⟨2, [.num 30]⟩, ⟨1, [.num 60]⟩] 0 =
      [⟨5, 10⟩, ⟨2, 30⟩, ⟨1, 60⟩] := by decide
  have hlen : ¬ (App.casePoints [⟨5, [.num 10]⟩, ⟨2, [.num 30]⟩, ⟨1, [.num 60]⟩] 0).length < 2 := by
    decide
  have hc10 : App.getDValueCore [⟨5, 10⟩, ⟨2, 30⟩, ⟨1, 60⟩] 10 = .exactHit 5 := by decide
  have hc30 : App.getDValueCore [⟨5, 10⟩, ⟨2, 30⟩, ⟨1, 60⟩] 30 = .exactHit 2 := by decide
  have hc60 : App.getDValueCore [⟨5, 10⟩, ⟨2, 30⟩, ⟨1, 60⟩] 60 = .exactHit 1 := by decide
  have h10 : (App.computeCase
      (App.casePoints [⟨5, [.num 10]⟩, ⟨2, [.num 30]⟩, ⟨1, [.num 60]⟩] 0)).D10 = .num 5 := by
    rw [App.computeCase_D10 hlen, hpts, App.getDValue, hc10]
    simp [DOut.toReal]
  have h30 : (App.computeCase
      (App.casePoints [⟨5, [.num 10]⟩, ⟨2, [.num 30]⟩, ⟨1, [.num 60]⟩] 0)).D30 = .num 2 := by
    rw [App.computeCase_D30 hlen, hpts, App.getDValue, hc30]
    simp [DOut.toReal]
  have h60 : (App.computeCase
      (App.casePoints [⟨5, [.num 10]⟩, ⟨2, [.num 30]⟩, ⟨1, [.num 60]⟩] 0)).D60 = .num 1 := by
    rw [App.computeCase_D60 hlen, hpts, App.getDValue, hc60]
    simp [DOut.toReal]
  exact ⟨C5_cu_cc.1 _ 0 5 1 h10 h60 (by norm_num),
    C5_cu_cc.2.2.1 _ 0 5 2 1 h10 h30 h60 (by norm_num) (by norm_num)⟩
